import Mathlib

/-
Verification of the GoTrain dispersion / root-finding core against its
natural-language specification.

Shallow embedding conventions:
* `float64` values are embedded as elements of an abstract linear ordered
  field `K` (instantiated at `ℚ` for executable witnesses and at `ℝ` for the
  transcendental soil/track physics).  Arithmetic is exact; claims about
  rounding are out of scope.
* IEEE NaN (the "undefined" sentinel used by the soil curve and by
  `InterceptLines` inputs) is embedded explicitly: a possibly-NaN float is an
  `Option K`, with `none` playing the role of NaN.  The helper operations
  `fpAdd`, `fpSub`, `fpMul`, `fpDiv`, `fpAbs` propagate `none` exactly as NaN
  propagates through IEEE arithmetic on finite values, and the boolean
  comparisons `fpLeZero`, `fpIsZero`, `fpNe` reproduce IEEE comparison
  semantics (every ordered comparison with NaN is false, `!=` with NaN is
  true).  Infinities never arise in the modelled code paths.
* Go slices become `List`s; positional writes become `List.map` /
  `List.set`; `(value, error)` returns become small inductive result types
  carrying one constructor per distinct error message of the source.
-/

namespace GoTrain

variable {K : Type} [LinearOrderedField K]

/-- Machine epsilon as computed by the Go source:
`math.Nextafter(1.0, 2.0) - 1.0 = 2⁻⁵²`. -/
def machEps (K : Type) [LinearOrderedField K] : K := 1 / 2 ^ 52

/-- Result of `Brent` in `pkg/utils/math_utils.go`: the root on success, or
one of the two distinct error messages of the source (`"root not bracketed:
f(a) and f(b) must have opposite signs"` and `"max iterations 1000
reached"`). -/
inductive BrentResult (K : Type) where
  | ok (root : K)
  | notBracketed
  | maxIterations
  deriving DecidableEq

/-- Mutable locals of Brent's main loop: `a, fa, b, fb, c, fc, d, e` of the
Go source, bundled as one state record. -/
structure BrentState (K : Type) where
  a : K
  fa : K
  b : K
  fb : K
  c : K
  fc : K
  d : K
  e : K

/-- Step-size selection of one Brent iteration (the `useSecant` /
interpolation block of the Go source).  Returns the pair `(d, e)` as left at
the end of the block: on an accepted interpolation `(p/q, old d)`, otherwise
the bisection step `(m, m)`. -/
def brentStepDE (eps tol : K) (s : BrentState K) : K × K :=
  let delta := 2 * eps * |s.b| + tol
  let m := (s.c - s.b) / 2
  if |s.e| ≥ delta ∧ |s.fa| > |s.fb| then
    let sc := s.fb / s.fa
    let pq : K × K :=
      if s.a = s.c then
        (2 * m * sc, 1 - sc)
      else
        let qq := s.fa / s.fc
        let rr := s.fb / s.fc
        (sc * (2 * m * qq * (qq - rr) - (s.b - s.a) * (rr - 1)),
         (qq - 1) * (rr - 1) * (sc - 1))
    let p := if pq.1 > 0 then pq.1 else -pq.1
    let q := if pq.1 > 0 then -pq.2 else pq.2
    if 2 * p < 3 * m * q - |delta * q| ∧ p < |s.e * q / 2| then (p / q, s.d)
    else (m, m)
  else (m, m)

/-- Update of `b` in one Brent iteration: take the chosen step when it
exceeds `delta`, otherwise force a minimum step of `delta` in the direction
of the midpoint `m`. -/
def brentNewB (eps tol : K) (s : BrentState K) : K :=
  let delta := 2 * eps * |s.b| + tol
  let m := (s.c - s.b) / 2
  let d := (brentStepDE eps tol s).1
  if |d| > delta then s.b + d else if m > 0 then s.b + delta else s.b - delta

/-- One full iteration of Brent's main loop body after the convergence check:
step selection, shift of `a`, update of `b` (with the forced minimum step
`delta` towards the midpoint), re-evaluation of `f`, and the conditional
rebinding of the bracket point `c`. -/
def brentNext (f : K → K) (eps tol : K) (s : BrentState K) : BrentState K :=
  let d := (brentStepDE eps tol s).1
  let e := (brentStepDE eps tol s).2
  let a' := s.b
  let fa' := s.fb
  let b' := brentNewB eps tol s
  let fb' := f b'
  if fa' * fb' < 0 then ⟨a', fa', b', fb', a', fa', d, e⟩
  else ⟨a', fa', b', fb', s.c, s.fc, d, e⟩

/-- Brent's main loop with the iteration counter turned into fuel; the Go
loop performs at most 1000 iterations, each consisting of the convergence
check followed by `brentNext`. -/
def brentLoop (f : K → K) (eps tol : K) : ℕ → BrentState K → BrentResult K
  | 0, _ => .maxIterations
  | fuel + 1, s =>
    let delta := 2 * eps * |s.b| + tol
    let m := (s.c - s.b) / 2
    if |m| ≤ delta ∨ s.fb = 0 then .ok s.b
    else brentLoop f eps tol fuel (brentNext f eps tol s)

/-- Embedding of `Brent(a, b, tol, f)` from `pkg/utils/math_utils.go`:
tolerance clamping, endpoint evaluations, the `fa*fb >= 0` bracket check,
the (unreachable, see the endpoint-zero theorems) exact-endpoint returns,
the swap making `b` the point of smaller `|f|`, and the 1000-iteration
loop. -/
def Brent (a b tol : K) (f : K → K) : BrentResult K :=
  let eps := machEps K
  let tol := if tol < eps then eps else tol
  let fa := f a
  let fb := f b
  if fa * fb ≥ 0 then .notBracketed
  else if fa = 0 then .ok a
  else if fb = 0 then .ok b
  else
    let s : BrentState K :=
      if |fa| < |fb| then ⟨b, fb, a, fa, b, fb, a - b, a - b⟩
      else ⟨a, fa, b, fb, a, fa, b - a, b - a⟩
    brentLoop f eps tol 1000 s

/-- Embedding of `Linspace(start, end, n)` from `pkg/utils/math_utils.go`.
`n` is a Go `int`, so it is embedded as `ℤ`; the final positional overwrite
`result[n-1] = end` of the source is kept. -/
def Linspace (start stop : K) (n : ℤ) : List K :=
  if n ≤ 0 then []
  else if n = 1 then [start]
  else
    let step := (stop - start) / ((n : K) - 1)
    (((List.range n.toNat).map fun i : ℕ => start + (i : K) * step).set (n.toNat - 1) stop)

/-! Possibly-NaN floats (`none` = NaN) and the IEEE operations used by
`InterceptLines`. -/

/-- Addition on possibly-NaN floats: NaN-propagating. -/
def fpAdd : Option K → Option K → Option K
  | some a, some b => some (a + b)
  | _, _ => none

/-- Subtraction on possibly-NaN floats: NaN-propagating. -/
def fpSub : Option K → Option K → Option K
  | some a, some b => some (a - b)
  | _, _ => none

/-- Multiplication on possibly-NaN floats: NaN-propagating. -/
def fpMul : Option K → Option K → Option K
  | some a, some b => some (a * b)
  | _, _ => none

/-- Division on possibly-NaN floats.  A zero divisor is mapped to `none`;
the modelled code only ever divides by a strictly positive quantity
(`|diff1| + |diff2|` with `diff1 ≠ 0`), so this case is never exercised. -/
def fpDiv : Option K → Option K → Option K
  | some a, some b => if b = 0 then none else some (a / b)
  | _, _ => none

/-- Absolute value on possibly-NaN floats. -/
def fpAbs : Option K → Option K
  | some a => some |a|
  | none => none

/-- IEEE comparison `v <= 0`: false when `v` is NaN. -/
def fpLeZero : Option K → Bool
  | some a => decide (a ≤ 0)
  | none => false

/-- IEEE comparison `v == 0`: false when `v` is NaN. -/
def fpIsZero : Option K → Bool
  | some a => decide (a = 0)
  | none => false

/-- IEEE comparison `u != v`: true when either side is NaN. -/
def fpNe : Option K → Option K → Bool
  | some a, some b => decide (a ≠ b)
  | _, _ => true

/-- Result of `InterceptLines` in `pkg/utils/math_utils.go`: an intersection
point on success, or one constructor per distinct error message of the
source (`"input arrays must have at least two elements"`, `"all input arrays
must have the same length"`, `"input arrays are parallel"`, `"no
intersection found"`). -/
inductive InterceptResult (K : Type) where
  | found (ix iy : Option K)
  | errTooShort
  | errLengthMismatch
  | errParallel
  | errNoIntersection
  deriving DecidableEq

/-- Pointwise zip of the three input slices; Go indexes `x[i]`, `y1[i]`,
`y2[i]` with one shared index over equal-length slices. -/
def zip3 {α β γ : Type} : List α → List β → List γ → List (α × β × γ)
  | a :: as, b :: bs, c :: cs => (a, b, c) :: zip3 as bs cs
  | _, _, _ => []

/-- Difference `y1[i] - y2[i]` of one zipped triple `(x[i], y1[i], y2[i])`
(the `diff` quantities of the scan). -/
def triDiff (t : Option K × Option K × Option K) : Option K := fpSub t.2.1 t.2.2

/-- Crossing branch of the `InterceptLines` scan (the body of the
`if diff1*diff2 <= 0` block of the Go source): exact match at the current
point, else exact match at the previous point, else linear interpolation
with `fraction = |diff2| / (|diff1| + |diff2|)`. -/
def crossingAt (prev cur : Option K × Option K × Option K) : InterceptResult K :=
  let diff1 := triDiff cur
  let diff2 := triDiff prev
  if fpIsZero diff1 then .found cur.1 cur.2.1
  else if fpIsZero diff2 then .found prev.1 prev.2.1
  else
    let fraction := fpDiv (fpAbs diff2) (fpAdd (fpAbs diff1) (fpAbs diff2))
    .found (fpAdd prev.1 (fpMul fraction (fpSub cur.1 prev.1)))
           (fpAdd prev.2.1 (fpMul fraction (fpSub cur.2.1 prev.2.1)))

/-- Main scan loop of `InterceptLines` (`for i := 1; i < len(x); i++`).
`prev` holds `(x[i-1], y1[i-1], y2[i-1])`, the list holds the remaining
triples from index `i` on, and the boolean accumulates `hasNonZeroDiff`. -/
def interceptScan :
    Option K × Option K × Option K →
    List (Option K × Option K × Option K) → Bool → InterceptResult K
  | _, [], acc => if acc then .errNoIntersection else .errParallel
  | prev, cur :: rest, acc =>
    let acc' := acc || fpNe (triDiff cur) (triDiff prev)
    if fpLeZero (fpMul (triDiff cur) (triDiff prev)) then crossingAt prev cur
    else interceptScan cur rest acc'

/-- Embedding of `InterceptLines(x, y1, y2)` from
`pkg/utils/math_utils.go`: the two length guards followed by the scan
starting at `i = 1` with `hasNonZeroDiff = false`.  The `[]` match arm is
unreachable: the guards guarantee at least two triples. -/
def InterceptLines (x y1 y2 : List (Option K)) : InterceptResult K :=
  if x.length < 2 ∨ y1.length < 2 ∨ y2.length < 2 then .errTooShort
  else if y1.length ≠ x.length ∨ y2.length ≠ x.length then .errLengthMismatch
  else
    match zip3 x y1 y2 with
    | [] => .errTooShort
    | p :: rest => interceptScan p rest false

/-! Track dispersion (`track_dispersion` package). -/

/-- Physical parameters of the ballast track model. -/
structure BallastTrackParameters (K : Type) where
  EIRail : K
  MRail : K
  KRailPad : K
  CRailPad : K
  MSleeper : K
  EBallast : K
  HBallast : K
  WidthSleeper : K
  RhoBallast : K
  SoilStiffness : K

/-- Physical parameters of the slab track model. -/
structure SlabTrackParameters (K : Type) where
  EIRail : K
  MRail : K
  EISlab : K
  MSlab : K
  KRailPad : K
  CRailPad : K
  SoilStiffness : K

/-- Embedding of `SlabTrackStiffness`: the 2×2 stiffness determinant
`k11*k22 - k12*k12` (gonum's `mat.Det` computes the mathematical
determinant; for the 2×2 matrix this is the cofactor expansion).  As in the
source, the railpad damping `CRailPad` is unused: the complex railpad
stiffness line is commented out and only `KRailPad` enters. -/
def SlabTrackStiffness (p : SlabTrackParameters K) (omega wavenumber : K) : K :=
  let kp := p.KRailPad
  let k11 := p.EIRail * wavenumber ^ 4 + kp - omega ^ 2 * p.MRail
  let k12 := -kp
  let k22 := kp + p.EISlab * wavenumber ^ 4 - omega ^ 2 * p.MSlab + p.SoilStiffness
  k11 * k22 - k12 * k12

/-- Embedding of `BallastTrackStiffness`: the 3×3 stiffness determinant of
`[[k11,k12,0],[k12,k22,k23],[0,k23,k33]]` by cofactor expansion.  Needs `ℝ`
for `math.Sqrt`, `math.Tan`, `math.Sin`. -/
noncomputable def BallastTrackStiffness (p : BallastTrackParameters ℝ)
    (omega wavenumber : ℝ) : ℝ :=
  let alpha : ℝ := 1 / 2
  let cp := Real.sqrt (p.EBallast / p.RhoBallast)
  let tan_value := Real.tan (omega * p.HBallast / cp) * cp
  let sin_value := Real.sin (omega * p.HBallast / cp) * cp
  let kp := p.KRailPad
  let k11 := p.EIRail * wavenumber ^ 4 + kp - omega ^ 2 * p.MRail
  let k12 := -kp
  let k22 := kp + (2 * omega * p.EBallast * p.WidthSleeper * alpha) / tan_value
    - omega ^ 2 * p.MSleeper
  let k23 := -(2 * omega * p.EBallast * p.WidthSleeper * alpha) / sin_value
  let k33 := 2 * omega * p.EBallast * p.WidthSleeper * alpha / tan_value + p.SoilStiffness
  k11 * (k22 * k33 - k23 * k23) - k12 * (k12 * k33 - k23 * 0) + 0 * (k12 * k23 - k22 * 0)

/-- Value stored by `RailTrackDispersion` at one frequency: Brent over the
fixed wavenumber band `[1e-3, 1e3]` with tolerance `1e-12`; `ω/k` on
success.  On a Brent error the Go function only prints the error and moves
on, so the slot keeps the value the slice was allocated with —
`make([]float64, len(omega))` zero-initializes, hence the float `0`. -/
def railPhaseVelocityAt (calcStiffness : K → K → K) (w : K) : K :=
  match Brent (1 / 1000) 1000 (1 / 10 ^ 12) (fun k => calcStiffness w k) with
  | .ok kk => w / kk
  | _ => 0

/-- Embedding of `RailTrackDispersion` from the `track_dispersion` package,
generic over the `TrackParameters` interface (the single dispatch operation
`CalculateStiffness`): each slot of the output is computed positionally and
independently from the frequency at the same index. -/
def RailTrackDispersion (calcStiffness : K → K → K) (omega : List K) : List K :=
  omega.map (railPhaseVelocityAt calcStiffness)

/-- Slab track parameters whose stiffness determinant is `wavenumber⁴`,
strictly positive on the whole search band (used as a concrete input on
which the Brent search fails). -/
def slabDemoParams : SlabTrackParameters ℚ := ⟨1, 0, 0, 0, 0, 0, 1⟩

/-! Soil dispersion (`soil_dispersion` package, fast delta matrix method).
These definitions need `ℝ` (for `math.Sqrt`/`Cosh`/`Sinh`/`Cos`/`Sin`) and
`ℂ` (for `complex128`). -/

/-- Soil layer record of the `soil_dispersion` package. -/
structure Layer where
  Density : ℝ
  YoungsModulus : ℝ
  PoissonRatio : ℝ
  Thickness : ℝ
  CompressionalWaveSpeed : ℝ
  ShearWaveSpeed : ℝ

instance : Inhabited Layer := ⟨⟨0, 0, 0, 0, 0, 0⟩⟩

/-- Embedding of the `Layer.WaveSpeed` method: derives and stores the
compressional and shear wave speeds from Young's modulus, Poisson's ratio
and density. -/
noncomputable def Layer.WaveSpeed (l : Layer) : Layer :=
  let shear_modulus := l.YoungsModulus / (2 * (1 + l.PoissonRatio))
  let p_modulus := l.YoungsModulus * (1 - l.PoissonRatio) /
    ((1 + l.PoissonRatio) * (1 - 2 * l.PoissonRatio))
  { l with
    CompressionalWaveSpeed := Real.sqrt (p_modulus / l.Density)
    ShearWaveSpeed := Real.sqrt (shear_modulus / l.Density) }

/-- Embedding of `computeTerms`: the per-layer propagation terms
`(C_alpha, S_alpha, C_beta, S_beta, r, s)`, with hyperbolic terms below the
layer wave speed, the `1e-200` epsilon substitute at equality, and
trigonometric terms (with the sine moved to the imaginary axis) above it. -/
noncomputable def computeTerms (c wavenumber thickness compressionalWave shearWaveSpeed : ℝ) :
    ℝ × ℂ × ℝ × ℂ × ℝ × ℝ :=
  let eps : ℝ := 1 / 10 ^ 200
  let pTerms : ℝ × ℝ × ℂ :=
    if c < compressionalWave then
      let r := Real.sqrt (1 - (c / compressionalWave) ^ 2)
      (r, Real.cosh (wavenumber * r * thickness),
        ((Real.sinh (wavenumber * r * thickness) : ℝ) : ℂ))
    else if c = compressionalWave then
      let r := eps
      (r, Real.cosh (wavenumber * r * thickness),
        ((Real.sinh (wavenumber * r * thickness) : ℝ) : ℂ))
    else
      let r := Real.sqrt ((c / compressionalWave) ^ 2 - 1)
      (r, Real.cos (wavenumber * r * thickness),
        ((Real.sin (wavenumber * r * thickness) : ℝ) : ℂ) * Complex.I)
  let sTerms : ℝ × ℝ × ℂ :=
    if c < shearWaveSpeed then
      let s := Real.sqrt (1 - (c / shearWaveSpeed) ^ 2)
      (s, Real.cosh (wavenumber * s * thickness),
        ((Real.sinh (wavenumber * s * thickness) : ℝ) : ℂ))
    else if c = shearWaveSpeed then
      let s := eps
      (s, Real.cosh (wavenumber * s * thickness),
        ((Real.sinh (wavenumber * s * thickness) : ℝ) : ℂ))
    else
      let s := Real.sqrt ((c / shearWaveSpeed) ^ 2 - 1)
      (s, Real.cos (wavenumber * s * thickness),
        ((Real.sin (wavenumber * s * thickness) : ℝ) : ℂ) * Complex.I)
  (pTerms.2.1, pTerms.2.2, sTerms.2.1, sTerms.2.2, pTerms.1, sTerms.1)

/-- The five compound quantities `X1[0..4]` of the fast delta recursion. -/
abbrev X5 := ℂ × ℂ × ℂ × ℂ × ℂ

/-- One interface step of the fast delta recursion (the body of the
`for i := 0; i < len(layers)-1; i++` loop of `dispersionFastDelta`). -/
noncomputable def fastDeltaStep (c wavenumber : ℝ) (current next : Layer) (X : X5) : X5 :=
  let gamma := (current.ShearWaveSpeed / c) ^ 2
  let gamma_next := (next.ShearWaveSpeed / c) ^ 2
  let terms := computeTerms c wavenumber current.Thickness
    current.CompressionalWaveSpeed current.ShearWaveSpeed
  let C_alpha := terms.1
  let S_alpha := terms.2.1
  let C_beta := terms.2.2.1
  let S_beta := terms.2.2.2.1
  let r := terms.2.2.2.2.1
  let s := terms.2.2.2.2.2
  let epsilon := next.Density / current.Density
  let eta := 2 * (gamma - epsilon * gamma_next)
  let a := epsilon + eta
  let a' := a - 1
  let b := 1 - eta
  let b' := b - 1
  let x1 := X.1
  let x2 := X.2.1
  let x3 := X.2.2.1
  let x4 := X.2.2.2.1
  let x5 := X.2.2.2.2
  let p1 := (C_beta : ℂ) * x2 + (s : ℂ) * S_beta * x3
  let p2 := (C_beta : ℂ) * x4 + (s : ℂ) * S_beta * x5
  let p3 := ((1 / s : ℝ) : ℂ) * S_beta * x2 + (C_beta : ℂ) * x3
  let p4 := ((1 / s : ℝ) : ℂ) * S_beta * x4 + (C_beta : ℂ) * x5
  let q1 := (C_alpha : ℂ) * p1 - (r : ℂ) * S_alpha * p2
  let q2 := ((-1 / r : ℝ) : ℂ) * S_alpha * p3 + (C_alpha : ℂ) * p4
  let q3 := (C_alpha : ℂ) * p3 - (r : ℂ) * S_alpha * p4
  let q4 := ((-1 / r : ℝ) : ℂ) * S_alpha * p1 + (C_alpha : ℂ) * p2
  let y1 := (a' : ℂ) * x1 + (a : ℂ) * q1
  let y2 := (a : ℂ) * x1 + (a' : ℂ) * q2
  let z1 := (b : ℂ) * x1 + (b' : ℂ) * q1
  let z2 := (b' : ℂ) * x1 + (b : ℂ) * q2
  ((b' : ℂ) * y1 + (b : ℂ) * y2,
   (a : ℂ) * y1 + (a' : ℂ) * y2,
   (epsilon : ℂ) * q3,
   (epsilon : ℂ) * q4,
   (b' : ℂ) * z1 + (b : ℂ) * z2)

/-- The layer loop of `dispersionFastDelta`: the recursion is applied to the
consecutive layer pairs `(layers[i], layers[i+1])` for `i` from `0` up to
(but excluding) the halfspace. -/
noncomputable def fastDeltaLoop (c wavenumber : ℝ) : List Layer → X5 → X5
  | cur :: next :: rest, X =>
    fastDeltaLoop c wavenumber (next :: rest) (fastDeltaStep c wavenumber cur next X)
  | _, X => X

/-- Embedding of `dispersionFastDelta`: initial state from the top layer
(`mu0`, `t_value`), halfspace coefficients `r_h`, `s_h`, the layer
recursion, and the closed-form final determinant, of which the real part is
returned. -/
noncomputable def dispersionFastDelta (layers : List Layer) (omega c : ℝ) : ℝ :=
  let wavenumber := omega / c
  let beta0 := layers.headI.ShearWaveSpeed
  let t_value := 2 - (c / beta0) ^ 2
  let mu0 := layers.headI.Density * beta0 ^ 2
  let X0 : X5 := (((mu0 * 2 * t_value : ℝ) : ℂ), ((mu0 * -(t_value ^ 2) : ℝ) : ℂ), 0, 0,
    ((mu0 * (-4) : ℝ) : ℂ))
  let last := layers.getLastD default
  let halfTerms := computeTerms c wavenumber last.Thickness
    last.CompressionalWaveSpeed last.ShearWaveSpeed
  let r_h := halfTerms.2.2.2.2.1
  let s_h := halfTerms.2.2.2.2.2
  let X := fastDeltaLoop c wavenumber layers X0
  let D := X.2.1 + (s_h : ℂ) * X.2.2.1 - (r_h : ℂ) * (X.2.2.2.1 + (s_h : ℂ) * X.2.2.2.2)
  D.re

/-- Minimum of a list of reals.  The Go source folds `min` starting from
`math.Inf(1)`; on a nonempty list (a valid soil profile has at least one
layer) that fold equals the list minimum, which is what this computes.  The
empty case is unreachable for valid profiles. -/
def listMin : List ℝ → ℝ
  | [] => 0
  | a :: as => as.foldl min a

/-- Maximum of a list of reals; Go folds `max` from `math.Inf(-1)`. -/
def listMax : List ℝ → ℝ
  | [] => 0
  | a :: as => as.foldl max a

/-- Trial phase-velocity grid of `SoilDispersion`:
`Linspace(0.6*minShear, 1.6*maxShear, 10000)`. -/
noncomputable def soilCList (layers : List Layer) : List ℝ :=
  let c_min := (6 / 10) * listMin (layers.map (·.ShearWaveSpeed))
  let c_max := (16 / 10) * listMax (layers.map (·.ShearWaveSpeed))
  Linspace c_min c_max 10000

/-- Inner scan of `SoilDispersion` over the trial-velocity grid: walk the
adjacent grid pairs in increasing order; on the first pair whose determinant
values have a strictly negative product return the pair's midpoint and stop;
`none` (the NaN sentinel of the Go source: `phase_speed[i]` is initialized
with `math.NaN()` and only overwritten on success) if the scan completes
with no sign change. -/
noncomputable def soilScan (D : ℝ → ℝ) : List ℝ → Option ℝ
  | c1 :: c2 :: rest =>
    if D c1 * D c2 < 0 then some ((c1 + c2) / 2) else soilScan D (c2 :: rest)
  | _ => none

/-- Embedding of `SoilDispersion(layers, omega)`: for each frequency
(positionally, independently of all others) scan the shared trial-velocity
grid.  A `none` entry is the `math.NaN()` sentinel of the source. -/
noncomputable def SoilDispersion (layers : List Layer) (omega : List ℝ) : List (Option ℝ) :=
  omega.map fun w => soilScan (fun c => dispersionFastDelta layers w c) (soilCList layers)

/-! Helper lemmas about positional access. -/

theorem getD_map_lt {α β : Type} (f : α → β) (l : List α) (i : ℕ) (h : i < l.length)
    (d : β) (d' : α) : (l.map f).getD i d = f (l.getD i d') := by
  rw [List.getD_eq_getElem?_getD, List.getElem?_map, List.getElem?_eq_getElem h,
    List.getD_eq_getElem?_getD, List.getElem?_eq_getElem h]
  rfl

theorem getD_range_map {β : Type} (f : ℕ → β) {m i : ℕ} (h : i < m) (d : β) :
    ((List.range m).map f).getD i d = f i := by
  rw [getD_map_lt f _ i (by simpa using h) d 0, List.getD_eq_getElem?_getD,
    List.getElem?_range h]
  rfl

theorem getD_set_self {α : Type} (l : List α) (j : ℕ) (v d : α) (h : j < l.length) :
    (l.set j v).getD j d = v := by
  rw [List.getD_eq_getElem?_getD, List.getElem?_set, if_pos rfl, if_pos h]
  rfl

theorem getD_set_ne {α : Type} (l : List α) (i j : ℕ) (v d : α) (h : j ≠ i) :
    (l.set j v).getD i d = l.getD i d := by
  rw [List.getD_eq_getElem?_getD, List.getElem?_set, if_neg (fun hj => h hj),
    List.getD_eq_getElem?_getD]

/-- C6: `Linspace(start, end, n)` with `n ≥ 2` returns exactly `n` values,
whose first element is exactly `start`, whose last element is exactly
`end`, and whose consecutive spacing is the constant `(end-start)/(n-1)`. -/
theorem Linspace_spec (start stop : K) (n : ℤ) (hn : 2 ≤ n) :
    (Linspace start stop n).length = n.toNat ∧
    (Linspace start stop n).getD 0 0 = start ∧
    (Linspace start stop n).getD (n.toNat - 1) 0 = stop ∧
    ∀ i : ℕ, i + 1 < n.toNat →
      (Linspace start stop n).getD (i + 1) 0 - (Linspace start stop n).getD i 0 =
        (stop - start) / ((n : K) - 1) := by
  have hn0 : ¬ n ≤ 0 := by omega
  have hn1 : n ≠ 1 := by omega
  have hm2 : 2 ≤ n.toNat := by omega
  have hcastn : ((n.toNat : ℤ) : K) = (n : K) := by
    rw [Int.toNat_of_nonneg (by omega)]
  have hstep : ((n : K) - 1) ≠ 0 := by
    have : (2 : K) ≤ (n : K) := by exact_mod_cast (by exact_mod_cast hn : (2 : ℤ) ≤ n)
    intro hz
    nlinarith
  set step := (stop - start) / ((n : K) - 1) with hstepdef
  have hspread : ((n : K) - 1) * step = stop - start := by
    rw [hstepdef, mul_div_cancel₀ _ hstep]
  have hL : Linspace start stop n =
      (((List.range n.toNat).map fun i : ℕ => start + (i : K) * step).set (n.toNat - 1) stop) := by
    rw [Linspace, if_neg hn0, if_neg hn1]
  have hlenbase :
      ((List.range n.toNat).map fun i : ℕ => start + (i : K) * step).length = n.toNat := by
    simp
  refine ⟨by rw [hL]; simp, ?_, ?_, ?_⟩
  · rw [hL, getD_set_ne _ _ _ _ _ (by omega), getD_range_map _ (by omega)]
    simp
  · rw [hL, getD_set_self _ _ _ _ (by rw [hlenbase]; omega)]
  · intro i hi
    by_cases hlast : i + 1 = n.toNat - 1
    · have hival : (i : ℕ) = n.toNat - 2 := by omega
      rw [hL, hlast, getD_set_self _ _ _ _ (by rw [hlenbase]; omega),
        getD_set_ne _ _ _ _ _ (by omega), getD_range_map _ (by omega)]
      have hcasti : ((i : ℕ) : K) = (n : K) - 2 := by
        have : ((i : ℕ) : ℤ) = n - 2 := by omega
        calc ((i : ℕ) : K) = (((i : ℕ) : ℤ) : K) := by norm_cast
        _ = ((n - 2 : ℤ) : K) := by rw [this]
        _ = (n : K) - 2 := by push_cast; ring
      rw [hcasti]
      have : stop - start = ((n : K) - 1) * step := hspread.symm
      nlinarith [hspread]
    · rw [hL, getD_set_ne _ _ _ _ _ (by omega), getD_set_ne _ _ _ _ _ (by omega),
        getD_range_map _ (by omega), getD_range_map _ (by omega)]
      push_cast
      ring

/-- C6 witness: `Linspace 0 3 3` over `ℚ` satisfies the specification. -/
theorem Linspace_spec_witness :
    (2 : ℤ) ≤ 3 ∧
    ((Linspace (0 : ℚ) 3 3).length = (3 : ℤ).toNat ∧
      (Linspace (0 : ℚ) 3 3).getD 0 0 = 0 ∧
      (Linspace (0 : ℚ) 3 3).getD ((3 : ℤ).toNat - 1) 0 = 3 ∧
      ∀ i : ℕ, i + 1 < (3 : ℤ).toNat →
        (Linspace (0 : ℚ) 3 3).getD (i + 1) 0 - (Linspace (0 : ℚ) 3 3).getD i 0 =
          (3 - 0) / ((((3 : ℤ)) : ℚ) - 1)) :=
  ⟨by decide, Linspace_spec 0 3 3 (by decide)⟩

/-- C7: after `WaveSpeed()`, the derived shear wave speed is
`sqrt((E/(2(1+ν)))/ρ)`, the derived compressional wave speed is
`sqrt((E(1-ν)/((1+ν)(1-2ν)))/ρ)`, and for `ρ > 0`, `E > 0`, `0 < ν < 1/2`
the shear wave speed is strictly below the compressional wave speed. -/
theorem Layer_WaveSpeed_spec (l : Layer) (hρ : 0 < l.Density) (hE : 0 < l.YoungsModulus)
    (hν0 : 0 < l.PoissonRatio) (hν : l.PoissonRatio < 1 / 2) :
    l.WaveSpeed.ShearWaveSpeed =
      Real.sqrt (l.YoungsModulus / (2 * (1 + l.PoissonRatio)) / l.Density) ∧
    l.WaveSpeed.CompressionalWaveSpeed =
      Real.sqrt (l.YoungsModulus * (1 - l.PoissonRatio) /
        ((1 + l.PoissonRatio) * (1 - 2 * l.PoissonRatio)) / l.Density) ∧
    l.WaveSpeed.ShearWaveSpeed < l.WaveSpeed.CompressionalWaveSpeed := by
  have h1 : (0 : ℝ) < 1 + l.PoissonRatio := by linarith
  have h2 : (0 : ℝ) < 1 - 2 * l.PoissonRatio := by linarith
  refine ⟨rfl, rfl, ?_⟩
  show Real.sqrt _ < Real.sqrt _
  apply Real.sqrt_lt_sqrt
  · positivity
  · rw [div_lt_div_iff_of_pos_right hρ, div_lt_div_iff₀ (by positivity) (by positivity)]
    nlinarith [mul_pos hE h1]

/-- C7 witness: a concrete layer with density 1, Young's modulus 1 and
Poisson ratio 1/4 satisfies the hypotheses and hence the conclusion. -/
theorem Layer_WaveSpeed_spec_witness :
    (0 : ℝ) < (1 : ℝ) ∧ (0 : ℝ) < (1 : ℝ) ∧ (0 : ℝ) < (1 / 4 : ℝ) ∧ (1 / 4 : ℝ) < 1 / 2 ∧
    (Layer.WaveSpeed ⟨1, 1, 1 / 4, 1, 0, 0⟩).ShearWaveSpeed <
      (Layer.WaveSpeed ⟨1, 1, 1 / 4, 1, 0, 0⟩).CompressionalWaveSpeed := by
  refine ⟨by norm_num, by norm_num, by norm_num, by norm_num, ?_⟩
  exact (Layer_WaveSpeed_spec ⟨1, 1, 1 / 4, 1, 0, 0⟩ (by norm_num) (by norm_num)
    (by norm_num) (by norm_num)).2.2

/-- C2 (bug evidence): with `f(x) = x - 1` on `[1, 3]` we have `f(a) = 0`,
yet `Brent` reports the not-bracketed error instead of returning `a`: the
check `fa*fb >= 0` precedes the endpoint-zero returns, so those returns
(and the source comment announcing them) are dead code. -/
theorem Brent_eq_notBracketed (a b tol : K) (f : K → K) (h : f a * f b ≥ 0) :
    Brent a b tol f = BrentResult.notBracketed := by
  simp only [Brent]
  rw [if_pos h]

theorem Brent_endpoint_zero_not_returned :
    Brent (1 : ℚ) 3 (1 / 2) (fun t => t - 1) = BrentResult.notBracketed :=
  Brent_eq_notBracketed 1 3 (1 / 2) (fun t => t - 1) (by norm_num)

/-- C1 counterexample: for the slab model `slabDemoParams` at `ω = 1` the
Brent search fails (determinant positive at both band endpoints), and
`RailTrackDispersion` records the number `0` — the zero-initialized slice
value — at that index, not an undefined/NaN sentinel. -/
theorem RailTrackDispersion_records_zero_cex :
    RailTrackDispersion (fun w k => SlabTrackStiffness slabDemoParams w k) [1] = [(0 : ℚ)] ∧
    Brent (1 / 1000 : ℚ) 1000 (1 / 10 ^ 12)
      (fun k => SlabTrackStiffness slabDemoParams 1 k) = BrentResult.notBracketed := by
  have hb : Brent (1 / 1000 : ℚ) 1000 (1 / 10 ^ 12)
      (fun k => SlabTrackStiffness slabDemoParams 1 k) = BrentResult.notBracketed :=
    Brent_eq_notBracketed _ _ _ _ (by norm_num [SlabTrackStiffness, slabDemoParams])
  refine ⟨?_, hb⟩
  simp only [RailTrackDispersion, List.map]
  rw [railPhaseVelocityAt, hb]

/-- C1 (amended): the output of `RailTrackDispersion` has one entry per
frequency, and the entry at index `i` depends only on the Brent search at
`ω_i`: it is `ω_i / k` on success and the number `0` on any failure, so
per-frequency failures never abort the remaining indices — but the recorded
value on failure is `0`, not a sentinel. -/
theorem RailTrackDispersion_zero_on_failure (calcStiffness : K → K → K) (omega : List K)
    (i : ℕ) (hi : i < omega.length) :
    (RailTrackDispersion calcStiffness omega).length = omega.length ∧
    (RailTrackDispersion calcStiffness omega).getD i 0 =
      railPhaseVelocityAt calcStiffness (omega.getD i 0) ∧
    (∀ w : K, Brent (1 / 1000 : K) 1000 (1 / 10 ^ 12) (fun k => calcStiffness w k) =
      BrentResult.notBracketed → railPhaseVelocityAt calcStiffness w = 0) ∧
    (∀ w : K, Brent (1 / 1000 : K) 1000 (1 / 10 ^ 12) (fun k => calcStiffness w k) =
      BrentResult.maxIterations → railPhaseVelocityAt calcStiffness w = 0) := by
  refine ⟨by simp [RailTrackDispersion], ?_, ?_, ?_⟩
  · rw [RailTrackDispersion, getD_map_lt _ _ i hi 0 0]
  · intro w hw
    rw [railPhaseVelocityAt, hw]
  · intro w hw
    rw [railPhaseVelocityAt, hw]

/-- C1 witness: the amended statement instantiated at the demo slab model
and the one-frequency list `[1]`. -/
theorem RailTrackDispersion_zero_on_failure_witness :
    0 < ([(1 : ℚ)]).length ∧
    ((RailTrackDispersion (fun w k => SlabTrackStiffness slabDemoParams w k)
        [(1 : ℚ)]).length = ([(1 : ℚ)]).length ∧
      (RailTrackDispersion (fun w k => SlabTrackStiffness slabDemoParams w k)
          [(1 : ℚ)]).getD 0 0 =
        railPhaseVelocityAt (fun w k => SlabTrackStiffness slabDemoParams w k)
          (([(1 : ℚ)]).getD 0 0) ∧
      (∀ w : ℚ, Brent (1 / 1000 : ℚ) 1000 (1 / 10 ^ 12)
          (fun k => SlabTrackStiffness slabDemoParams w k) = BrentResult.notBracketed →
        railPhaseVelocityAt (fun w k => SlabTrackStiffness slabDemoParams w k) w = 0) ∧
      (∀ w : ℚ, Brent (1 / 1000 : ℚ) 1000 (1 / 10 ^ 12)
          (fun k => SlabTrackStiffness slabDemoParams w k) = BrentResult.maxIterations →
        railPhaseVelocityAt (fun w k => SlabTrackStiffness slabDemoParams w k) w = 0)) := by
  refine ⟨by norm_num, ?_⟩
  exact RailTrackDispersion_zero_on_failure
    (fun w k => SlabTrackStiffness slabDemoParams w k) [(1 : ℚ)] 0 (by norm_num)

/-- C10: whenever the two curves agree (as numbers) at indices 0 and 1 —
in particular when they are pointwise identical — `InterceptLines` returns
the exact match at the second sample `(x[1], y1[1])`, because the scan
starts at `i = 1` and tests the current index's difference for zero before
the previous index's. -/
theorem InterceptLines_agree_first_two (x0 x1 : Option K) (xs : List (Option K))
    (a0 a1 : K) (t1 t2 : List (Option K))
    (h1 : t1.length = xs.length) (h2 : t2.length = xs.length) :
    InterceptLines (x0 :: x1 :: xs) (some a0 :: some a1 :: t1) (some a0 :: some a1 :: t2) =
      InterceptResult.found x1 (some a1) := by
  rw [InterceptLines, if_neg (by simp), if_neg (by simp [h1, h2])]
  show interceptScan (x0, some a0, some a0) ((x1, some a1, some a1) :: zip3 xs t1 t2) false = _
  rw [interceptScan]
  simp [crossingAt, triDiff, fpSub, fpMul, fpLeZero, fpIsZero]

/-- C10 witness: two identical two-point curves; the intersection reported
is the second sample. -/
theorem InterceptLines_agree_first_two_witness :
    ([] : List (Option ℚ)).length = ([] : List (Option ℚ)).length ∧
    InterceptLines [some (0 : ℚ), some 1] [some (5 : ℚ), some 7] [some (5 : ℚ), some 7] =
      InterceptResult.found (some 1) (some 7) :=
  ⟨rfl, InterceptLines_agree_first_two (some 0) (some 1) [] 5 7 [] [] rfl rfl⟩

/-! Characterization of the soil grid scan.  The scan lemmas index the grid
by the left element of each adjacent pair (`j0` stands for the pair
`(c_{j0}, c_{j0+1})`); the claim-facing theorem restates them with the
claim's right-element index `j ≥ 1`. -/

theorem soilScan_some_iff (D : ℝ → ℝ) (cs : List ℝ) :
    ∀ v : ℝ, soilScan D cs = some v ↔
      ∃ j0 : ℕ, j0 + 1 < cs.length ∧
        D (cs.getD j0 0) * D (cs.getD (j0 + 1) 0) < 0 ∧
        (∀ i : ℕ, i < j0 → ¬ D (cs.getD i 0) * D (cs.getD (i + 1) 0) < 0) ∧
        v = (cs.getD j0 0 + cs.getD (j0 + 1) 0) / 2 := by
  induction cs with
  | nil =>
    intro v
    simp [soilScan]
  | cons c1 tl ih =>
    cases tl with
    | nil =>
      intro v
      constructor
      · intro h
        simp [soilScan] at h
      · rintro ⟨j0, hjL, -⟩
        simp at hjL
    | cons c2 rest =>
      intro v
      by_cases h : D c1 * D c2 < 0
      · rw [soilScan, if_pos h]
        constructor
        · intro h2
          exact ⟨0, by simp, by simpa using h, by omega,
            by simpa using (Option.some_injective _ h2).symm⟩
        · rintro ⟨j0, hjL, htrig, hmin, hv⟩
          have hj : j0 = 0 := by
            by_contra hne
            exact hmin 0 (by omega) (by simpa using h)
          subst hj
          simp only [List.getD_cons_zero, List.getD_cons_succ] at hv
          rw [hv]
      · rw [soilScan, if_neg h, ih v]
        constructor
        · rintro ⟨j0, hjL, htrig, hmin, hv⟩
          refine ⟨j0 + 1, by simpa using hjL, by simpa using htrig, ?_,
            by simpa using hv⟩
          intro i hi
          cases i with
          | zero => simpa using h
          | succ i' => simpa using hmin i' (by omega)
        · rintro ⟨j0, hjL, htrig, hmin, hv⟩
          cases j0 with
          | zero =>
            exact absurd (by simpa using htrig) h
          | succ j1 =>
            refine ⟨j1, by simpa using hjL, by simpa using htrig, ?_,
              by simpa using hv⟩
            intro i hi
            have := hmin (i + 1) (by omega)
            simpa using this

theorem soilScan_none_iff (D : ℝ → ℝ) (cs : List ℝ) :
    soilScan D cs = none ↔
      ∀ j0 : ℕ, j0 + 1 < cs.length → ¬ D (cs.getD j0 0) * D (cs.getD (j0 + 1) 0) < 0 := by
  induction cs with
  | nil => simp [soilScan]
  | cons c1 tl ih =>
    cases tl with
    | nil =>
      simp [soilScan]
    | cons c2 rest =>
      by_cases h : D c1 * D c2 < 0
      · rw [soilScan, if_pos h]
        constructor
        · intro h2
          exact absurd h2 (by simp)
        · intro hall
          exact absurd (by simpa using h) (hall 0 (by simp))
      · rw [soilScan, if_neg h, ih]
        constructor
        · intro hall j0 hjL
          cases j0 with
          | zero => simpa using h
          | succ j1 => simpa using hall j1 (by simpa using hjL)
        · intro hall j0 hjL
          have := hall (j0 + 1) (by simpa using hjL)
          simpa using this

/-- C3: at every frequency index `i`, `SoilDispersion` yields `some v`
exactly when `v` is the midpoint `(c_{j-1}+c_j)/2` of the first (smallest
`j ≥ 1`) adjacent grid pair at which the fast-delta determinant changes
sign — later sign changes are ignored — and yields the NaN sentinel
(modelled as `none`) exactly when no adjacent grid pair changes sign; the
value at index `i` depends only on `ω_i`, so a no-root frequency never
disturbs the other indices. -/
theorem SoilDispersion_first_root (layers : List Layer) (_hne : layers ≠ []) (omega : List ℝ)
    (i : ℕ) (hi : i < omega.length) :
    (∀ v : ℝ, (SoilDispersion layers omega).getD i none = some v ↔
      ∃ j : ℕ, 1 ≤ j ∧ j < (soilCList layers).length ∧
        dispersionFastDelta layers (omega.getD i 0) ((soilCList layers).getD (j - 1) 0) *
          dispersionFastDelta layers (omega.getD i 0) ((soilCList layers).getD j 0) < 0 ∧
        (∀ j' : ℕ, 1 ≤ j' → j' < j →
          ¬ dispersionFastDelta layers (omega.getD i 0) ((soilCList layers).getD (j' - 1) 0) *
            dispersionFastDelta layers (omega.getD i 0) ((soilCList layers).getD j' 0) < 0) ∧
        v = ((soilCList layers).getD (j - 1) 0 + (soilCList layers).getD j 0) / 2) ∧
    ((SoilDispersion layers omega).getD i none = none ↔
      ∀ j : ℕ, 1 ≤ j → j < (soilCList layers).length →
        ¬ dispersionFastDelta layers (omega.getD i 0) ((soilCList layers).getD (j - 1) 0) *
          dispersionFastDelta layers (omega.getD i 0) ((soilCList layers).getD j 0) < 0) := by
  have hout : (SoilDispersion layers omega).getD i none =
      soilScan (fun c => dispersionFastDelta layers (omega.getD i 0) c) (soilCList layers) := by
    rw [SoilDispersion, getD_map_lt _ _ i hi none 0]
  constructor
  · intro v
    rw [hout, soilScan_some_iff _ _ v]
    constructor
    · rintro ⟨j0, hjL, htrig, hmin, hv⟩
      refine ⟨j0 + 1, by omega, by omega, by simpa using htrig, ?_, by simpa using hv⟩
      intro j' hj'1 hj'lt
      obtain ⟨i', rfl⟩ : ∃ i', j' = i' + 1 := ⟨j' - 1, by omega⟩
      simpa using hmin i' (by omega)
    · rintro ⟨j, hj1, hjL, htrig, hmin, hv⟩
      obtain ⟨j0, rfl⟩ : ∃ j0, j = j0 + 1 := ⟨j - 1, by omega⟩
      refine ⟨j0, by omega, by simpa using htrig, ?_, by simpa using hv⟩
      intro i' hi'
      have := hmin (i' + 1) (by omega) (by omega)
      simpa using this
  · rw [hout, soilScan_none_iff _ _]
    constructor
    · intro hall j hj1 hjL
      obtain ⟨j0, rfl⟩ : ∃ j0, j = j0 + 1 := ⟨j - 1, by omega⟩
      simpa using hall j0 (by omega)
    · intro hall j0 hjL
      have := hall (j0 + 1) (by omega) (by omega)
      simpa using this

/-- C3 witness: a concrete one-layer profile and one-frequency list
satisfying the hypotheses. -/
theorem SoilDispersion_first_root_witness :
    ([(⟨1, 1, 1 / 4, 1, 1, 1⟩ : Layer)] ≠ ([] : List Layer)) ∧
    0 < ([(1 : ℝ)]).length ∧
    ((∀ v : ℝ, (SoilDispersion [(⟨1, 1, 1 / 4, 1, 1, 1⟩ : Layer)] [(1 : ℝ)]).getD 0 none =
        some v ↔
      ∃ j : ℕ, 1 ≤ j ∧ j < (soilCList [(⟨1, 1, 1 / 4, 1, 1, 1⟩ : Layer)]).length ∧
        dispersionFastDelta [(⟨1, 1, 1 / 4, 1, 1, 1⟩ : Layer)] (([(1 : ℝ)]).getD 0 0)
            ((soilCList [(⟨1, 1, 1 / 4, 1, 1, 1⟩ : Layer)]).getD (j - 1) 0) *
          dispersionFastDelta [(⟨1, 1, 1 / 4, 1, 1, 1⟩ : Layer)] (([(1 : ℝ)]).getD 0 0)
            ((soilCList [(⟨1, 1, 1 / 4, 1, 1, 1⟩ : Layer)]).getD j 0) < 0 ∧
        (∀ j' : ℕ, 1 ≤ j' → j' < j →
          ¬ dispersionFastDelta [(⟨1, 1, 1 / 4, 1, 1, 1⟩ : Layer)] (([(1 : ℝ)]).getD 0 0)
              ((soilCList [(⟨1, 1, 1 / 4, 1, 1, 1⟩ : Layer)]).getD (j' - 1) 0) *
            dispersionFastDelta [(⟨1, 1, 1 / 4, 1, 1, 1⟩ : Layer)] (([(1 : ℝ)]).getD 0 0)
              ((soilCList [(⟨1, 1, 1 / 4, 1, 1, 1⟩ : Layer)]).getD j' 0) < 0) ∧
        v = ((soilCList [(⟨1, 1, 1 / 4, 1, 1, 1⟩ : Layer)]).getD (j - 1) 0 +
          (soilCList [(⟨1, 1, 1 / 4, 1, 1, 1⟩ : Layer)]).getD j 0) / 2) ∧
    ((SoilDispersion [(⟨1, 1, 1 / 4, 1, 1, 1⟩ : Layer)] [(1 : ℝ)]).getD 0 none = none ↔
      ∀ j : ℕ, 1 ≤ j → j < (soilCList [(⟨1, 1, 1 / 4, 1, 1, 1⟩ : Layer)]).length →
        ¬ dispersionFastDelta [(⟨1, 1, 1 / 4, 1, 1, 1⟩ : Layer)] (([(1 : ℝ)]).getD 0 0)
            ((soilCList [(⟨1, 1, 1 / 4, 1, 1, 1⟩ : Layer)]).getD (j - 1) 0) *
          dispersionFastDelta [(⟨1, 1, 1 / 4, 1, 1, 1⟩ : Layer)] (([(1 : ℝ)]).getD 0 0)
            ((soilCList [(⟨1, 1, 1 / 4, 1, 1, 1⟩ : Layer)]).getD j 0) < 0)) := by
  refine ⟨by simp, by simp, ?_⟩
  exact SoilDispersion_first_root [⟨1, 1, 1 / 4, 1, 1, 1⟩] (by simp) [(1 : ℝ)] 0 (by simp)

/-! Helper lemmas for the `InterceptLines` analysis. -/

theorem fpLeZero_fpMul_true {d1 d2 : Option K} (h : fpLeZero (fpMul d1 d2) = true) :
    ∃ a b, d1 = some a ∧ d2 = some b ∧ a * b ≤ 0 := by
  cases d1 with
  | none => simp [fpMul, fpLeZero] at h
  | some a =>
    cases d2 with
    | none => simp [fpMul, fpLeZero] at h
    | some b => exact ⟨a, b, rfl, rfl, by simpa [fpMul, fpLeZero] using h⟩

theorem triDiff_some {t : Option K × Option K × Option K} {q : K}
    (h : triDiff t = some q) : (∃ a, t.2.1 = some a) ∧ ∃ b, t.2.2 = some b := by
  rcases t with ⟨tx, ty1, ty2⟩
  cases ty1 with
  | none => simp [triDiff, fpSub] at h
  | some a =>
    cases ty2 with
    | none => simp [triDiff, fpSub] at h
    | some b => exact ⟨⟨a, rfl⟩, ⟨b, rfl⟩⟩

theorem crossingAt_found (prev cur : Option K × Option K × Option K) :
    ∃ u v, crossingAt prev cur = InterceptResult.found u v := by
  rw [crossingAt]
  split
  · exact ⟨_, _, rfl⟩
  · split
    · exact ⟨_, _, rfl⟩
    · exact ⟨_, _, rfl⟩

theorem zip3_length_eq {α β γ : Type} :
    ∀ (as : List α) (bs : List β) (cs : List γ), bs.length = as.length →
      cs.length = as.length → (zip3 as bs cs).length = as.length := by
  intro as
  induction as with
  | nil =>
    intro bs cs h1 h2
    cases bs <;> cases cs <;> simp_all [zip3]
  | cons a as' ih =>
    intro bs cs h1 h2
    cases bs with
    | nil => simp at h1
    | cons b bs' =>
      cases cs with
      | nil => simp at h2
      | cons c cs' =>
        simp only [zip3, List.length_cons]
        rw [ih bs' cs' (by simpa using h1) (by simpa using h2)]

theorem zip3_getD {α β γ : Type} :
    ∀ (as : List α) (bs : List β) (cs : List γ) (j : ℕ), j < as.length →
      bs.length = as.length → cs.length = as.length → ∀ (da : α) (db : β) (dc : γ),
      (zip3 as bs cs).getD j (da, db, dc) = (as.getD j da, bs.getD j db, cs.getD j dc) := by
  intro as
  induction as with
  | nil =>
    intro bs cs j hj
    simp at hj
  | cons a as' ih =>
    intro bs cs j hj h1 h2 da db dc
    cases bs with
    | nil => simp at h1
    | cons b bs' =>
      cases cs with
      | nil => simp at h2
      | cons c cs' =>
        cases j with
        | zero => simp [zip3]
        | succ j' =>
          simp only [zip3, List.getD_cons_succ]
          exact ih bs' cs' j' (by simpa using hj) (by simpa using h1) (by simpa using h2)
            da db dc

theorem interceptScan_found_of_trig :
    ∀ (rest : List (Option K × Option K × Option K))
      (prev : Option K × Option K × Option K) (acc : Bool),
      (∃ j, j < rest.length ∧
        fpLeZero (fpMul (triDiff (rest.getD j (none, none, none)))
          (triDiff ((prev :: rest).getD j (none, none, none)))) = true) →
      ∃ j, j < rest.length ∧
        fpLeZero (fpMul (triDiff (rest.getD j (none, none, none)))
          (triDiff ((prev :: rest).getD j (none, none, none)))) = true ∧
        (∀ i, i < j →
          fpLeZero (fpMul (triDiff (rest.getD i (none, none, none)))
            (triDiff ((prev :: rest).getD i (none, none, none)))) = false) ∧
        interceptScan prev rest acc =
          crossingAt ((prev :: rest).getD j (none, none, none))
            (rest.getD j (none, none, none)) := by
  intro rest
  induction rest with
  | nil =>
    rintro prev acc ⟨j, hj, -⟩
    simp at hj
  | cons cur tail ih =>
    intro prev acc h
    by_cases h0 : fpLeZero (fpMul (triDiff cur) (triDiff prev)) = true
    · refine ⟨0, by simp, by simpa using h0, by omega, ?_⟩
      simp [interceptScan, h0]
    · have h0' : fpLeZero (fpMul (triDiff cur) (triDiff prev)) = false := by
        simpa using h0
      obtain ⟨j, hjlen, hjtrig⟩ := h
      cases j with
      | zero => exact absurd (by simpa using hjtrig) h0
      | succ j' =>
        obtain ⟨j0, hj0len, hj0trig, hj0min, hscan⟩ :=
          ih cur (acc || fpNe (triDiff cur) (triDiff prev))
            ⟨j', by simpa using hjlen, by simpa using hjtrig⟩
        refine ⟨j0 + 1, by simpa using hj0len, by simpa using hj0trig, ?_, ?_⟩
        · intro i hi
          cases i with
          | zero => simpa using h0'
          | succ i' => simpa using hj0min i' (by omega)
        · rw [interceptScan, if_neg (by simp [h0'])]
          simpa using hscan

theorem interceptScan_parallel_iff :
    ∀ (rest : List (Option K × Option K × Option K))
      (prev : Option K × Option K × Option K) (acc : Bool),
      interceptScan prev rest acc = InterceptResult.errParallel ↔
        (∀ j, j < rest.length →
          fpLeZero (fpMul (triDiff (rest.getD j (none, none, none)))
            (triDiff ((prev :: rest).getD j (none, none, none)))) = false) ∧
        acc = false ∧
        (∀ j, j < rest.length →
          fpNe (triDiff (rest.getD j (none, none, none)))
            (triDiff ((prev :: rest).getD j (none, none, none))) = false) := by
  intro rest
  induction rest with
  | nil =>
    intro prev acc
    cases acc <;> simp [interceptScan]
  | cons cur tail ih =>
    intro prev acc
    by_cases h0 : fpLeZero (fpMul (triDiff cur) (triDiff prev)) = true
    · obtain ⟨u, v, hcr⟩ := crossingAt_found prev cur
      constructor
      · intro heq
        rw [interceptScan, if_pos h0, hcr] at heq
        exact absurd heq (by simp)
      · rintro ⟨hnt, -, -⟩
        exact absurd h0 (by simpa using hnt 0 (by simp))
    · have h0' : fpLeZero (fpMul (triDiff cur) (triDiff prev)) = false := by
        simpa using h0
      rw [interceptScan, if_neg (by simp [h0']), ih cur _]
      constructor
      · rintro ⟨ht, hacc, hne⟩
        rw [Bool.or_eq_false_iff] at hacc
        refine ⟨?_, hacc.1, ?_⟩
        · intro j hj
          cases j with
          | zero => simpa using h0'
          | succ j' => simpa using ht j' (by simpa using hj)
        · intro j hj
          cases j with
          | zero => simpa using hacc.2
          | succ j' => simpa using hne j' (by simpa using hj)
      · rintro ⟨ht, hacc, hne⟩
        refine ⟨?_, ?_, ?_⟩
        · intro j hj
          simpa using ht (j + 1) (by simpa using hj)
        · rw [Bool.or_eq_false_iff]
          exact ⟨hacc, by simpa using hne 0 (by simp)⟩
        · intro j hj
          simpa using hne (j + 1) (by simpa using hj)

theorem interceptScan_noIntersection_iff :
    ∀ (rest : List (Option K × Option K × Option K))
      (prev : Option K × Option K × Option K) (acc : Bool),
      interceptScan prev rest acc = InterceptResult.errNoIntersection ↔
        (∀ j, j < rest.length →
          fpLeZero (fpMul (triDiff (rest.getD j (none, none, none)))
            (triDiff ((prev :: rest).getD j (none, none, none)))) = false) ∧
        (acc = true ∨ ∃ j, j < rest.length ∧
          fpNe (triDiff (rest.getD j (none, none, none)))
            (triDiff ((prev :: rest).getD j (none, none, none))) = true) := by
  intro rest
  induction rest with
  | nil =>
    intro prev acc
    cases acc <;> simp [interceptScan]
  | cons cur tail ih =>
    intro prev acc
    by_cases h0 : fpLeZero (fpMul (triDiff cur) (triDiff prev)) = true
    · obtain ⟨u, v, hcr⟩ := crossingAt_found prev cur
      constructor
      · intro heq
        rw [interceptScan, if_pos h0, hcr] at heq
        exact absurd heq (by simp)
      · rintro ⟨hnt, -⟩
        exact absurd h0 (by simpa using hnt 0 (by simp))
    · have h0' : fpLeZero (fpMul (triDiff cur) (triDiff prev)) = false := by
        simpa using h0
      rw [interceptScan, if_neg (by simp [h0']), ih cur _]
      constructor
      · rintro ⟨ht, hrest⟩
        refine ⟨?_, ?_⟩
        · intro j hj
          cases j with
          | zero => simpa using h0'
          | succ j' => simpa using ht j' (by simpa using hj)
        · rcases hrest with hacc | ⟨j, hj, hne⟩
          · rw [Bool.or_eq_true_iff] at hacc
            rcases hacc with hacc | hne0
            · exact Or.inl hacc
            · exact Or.inr ⟨0, by simp, by simpa using hne0⟩
          · exact Or.inr ⟨j + 1, by simpa using hj, by simpa using hne⟩
      · rintro ⟨ht, hrest⟩
        refine ⟨?_, ?_⟩
        · intro j hj
          simpa using ht (j + 1) (by simpa using hj)
        · rcases hrest with hacc | ⟨j, hj, hne⟩
          · exact Or.inl (by simp [hacc])
          · cases j with
            | zero => exact Or.inl (by simp [show fpNe (triDiff cur) (triDiff prev) = true
                from by simpa using hne])
            | succ j' => exact Or.inr ⟨j', by simpa using hj, by simpa using hne⟩

theorem interceptScan_of_no_trig :
    ∀ (rest : List (Option K × Option K × Option K))
      (prev : Option K × Option K × Option K) (acc : Bool),
      (∀ j, j < rest.length →
        fpLeZero (fpMul (triDiff (rest.getD j (none, none, none)))
          (triDiff ((prev :: rest).getD j (none, none, none)))) = false) →
      interceptScan prev rest acc = InterceptResult.errParallel ∨
        interceptScan prev rest acc = InterceptResult.errNoIntersection := by
  intro rest
  induction rest with
  | nil =>
    intro prev acc hnt
    cases acc <;> simp [interceptScan]
  | cons cur tail ih =>
    intro prev acc hnt
    have h0' : fpLeZero (fpMul (triDiff cur) (triDiff prev)) = false := by
      simpa using hnt 0 (by simp)
    rw [interceptScan, if_neg (by simp [h0'])]
    exact ih cur _ (fun j hj => by simpa using hnt (j + 1) (by simpa using hj))

theorem interceptScan_ne_length_err :
    ∀ (rest : List (Option K × Option K × Option K))
      (prev : Option K × Option K × Option K) (acc : Bool),
      interceptScan prev rest acc ≠ InterceptResult.errTooShort ∧
      interceptScan prev rest acc ≠ InterceptResult.errLengthMismatch := by
  intro rest
  induction rest with
  | nil =>
    intro prev acc
    cases acc <;> simp [interceptScan]
  | cons cur tail ih =>
    intro prev acc
    rw [interceptScan]
    split
    · obtain ⟨u, v, hcr⟩ := crossingAt_found prev cur
      rw [hcr]
      simp
    · exact ih cur _

theorem interceptLines_eq_scan (x y1 y2 : List (Option K))
    (h2 : 2 ≤ x.length) (e1 : y1.length = x.length) (e2 : y2.length = x.length) :
    ∃ p rest, zip3 x y1 y2 = p :: rest ∧
      InterceptLines x y1 y2 = interceptScan p rest false ∧
      rest.length + 1 = x.length ∧
      ∀ j, j < x.length →
        (p :: rest).getD j (none, none, none) =
          (x.getD j none, y1.getD j none, y2.getD j none) := by
  cases x with
  | nil => simp at h2
  | cons a x' =>
    cases y1 with
    | nil => simp at e1
    | cons b y1' =>
      cases y2 with
      | nil => simp at e2
      | cons c y2' =>
        refine ⟨(a, b, c), zip3 x' y1' y2', rfl, ?_, ?_, ?_⟩
        · simp only [List.length_cons] at h2 e1 e2
          rw [InterceptLines, if_neg (by simp only [List.length_cons]; omega),
            if_neg (by simp only [List.length_cons]; omega)]
          rfl
        · have := zip3_length_eq x' y1' y2' (by simpa using e1) (by simpa using e2)
          simpa using this
        · intro j hj
          exact zip3_getD (a :: x') (b :: y1') (c :: y2') j hj e1 e2 none none none

/-- C4: `InterceptLines` fails with exactly one of three kinds of named
errors and succeeds otherwise: a length error (one of the two length
messages) iff some input has fewer than 2 points or the lengths differ; for
well-formed inputs, the "parallel" error iff no index triggers the
sign-change test and the pointwise difference never changes value across
the scan; the distinct "no intersection found" error iff no index triggers
the test but the difference does change value somewhere; and success
(a `found` result) iff some index triggers the sign-change test. -/
theorem InterceptLines_error_taxonomy (x y1 y2 : List (Option K)) :
    ((InterceptLines x y1 y2 = InterceptResult.errTooShort ∨
        InterceptLines x y1 y2 = InterceptResult.errLengthMismatch) ↔
      (x.length < 2 ∨ y1.length < 2 ∨ y2.length < 2 ∨
        y1.length ≠ x.length ∨ y2.length ≠ x.length)) ∧
    (InterceptLines x y1 y2 = InterceptResult.errParallel ↔
      ¬(x.length < 2 ∨ y1.length < 2 ∨ y2.length < 2 ∨
          y1.length ≠ x.length ∨ y2.length ≠ x.length) ∧
        (∀ i, 1 ≤ i → i < x.length →
          fpLeZero (fpMul (fpSub (y1.getD i none) (y2.getD i none))
            (fpSub (y1.getD (i - 1) none) (y2.getD (i - 1) none))) = false) ∧
        (∀ i, 1 ≤ i → i < x.length →
          fpNe (fpSub (y1.getD i none) (y2.getD i none))
            (fpSub (y1.getD (i - 1) none) (y2.getD (i - 1) none)) = false)) ∧
    (InterceptLines x y1 y2 = InterceptResult.errNoIntersection ↔
      ¬(x.length < 2 ∨ y1.length < 2 ∨ y2.length < 2 ∨
          y1.length ≠ x.length ∨ y2.length ≠ x.length) ∧
        (∀ i, 1 ≤ i → i < x.length →
          fpLeZero (fpMul (fpSub (y1.getD i none) (y2.getD i none))
            (fpSub (y1.getD (i - 1) none) (y2.getD (i - 1) none))) = false) ∧
        (∃ i, 1 ≤ i ∧ i < x.length ∧
          fpNe (fpSub (y1.getD i none) (y2.getD i none))
            (fpSub (y1.getD (i - 1) none) (y2.getD (i - 1) none)) = true)) ∧
    ((∃ u v, InterceptLines x y1 y2 = InterceptResult.found u v) ↔
      ¬(x.length < 2 ∨ y1.length < 2 ∨ y2.length < 2 ∨
          y1.length ≠ x.length ∨ y2.length ≠ x.length) ∧
        ∃ i, 1 ≤ i ∧ i < x.length ∧
          fpLeZero (fpMul (fpSub (y1.getD i none) (y2.getD i none))
            (fpSub (y1.getD (i - 1) none) (y2.getD (i - 1) none))) = true) := by
  by_cases hshort : x.length < 2 ∨ y1.length < 2 ∨ y2.length < 2
  · have hres : InterceptLines x y1 y2 = InterceptResult.errTooShort := by
      rw [InterceptLines, if_pos hshort]
    refine ⟨iff_of_true (Or.inl hres) (by tauto), iff_of_false (by rw [hres]; simp)
      (fun h => h.1 (by tauto)), iff_of_false (by rw [hres]; simp)
      (fun h => h.1 (by tauto)), iff_of_false ?_ (fun h => h.1 (by tauto))⟩
    rintro ⟨u, v, hf⟩
    rw [hres] at hf
    exact absurd hf (by simp)
  · by_cases hmis : y1.length ≠ x.length ∨ y2.length ≠ x.length
    · have hres : InterceptLines x y1 y2 = InterceptResult.errLengthMismatch := by
        rw [InterceptLines, if_neg hshort, if_pos hmis]
      refine ⟨iff_of_true (Or.inr hres) (by tauto), iff_of_false (by rw [hres]; simp)
        (fun h => h.1 (by tauto)), iff_of_false (by rw [hres]; simp)
        (fun h => h.1 (by tauto)), iff_of_false ?_ (fun h => h.1 (by tauto))⟩
      rintro ⟨u, v, hf⟩
      rw [hres] at hf
      exact absurd hf (by simp)
    · push_neg at hshort hmis
      obtain ⟨hx2, hy12, hy22⟩ := hshort
      obtain ⟨e1, e2⟩ := hmis
      obtain ⟨p, rest, hzip, hscan, hlen, hgetD⟩ :=
        interceptLines_eq_scan x y1 y2 (by omega) e1 e2
      have hnb : ¬(x.length < 2 ∨ y1.length < 2 ∨ y2.length < 2 ∨
          y1.length ≠ x.length ∨ y2.length ≠ x.length) := by
        push_neg
        exact ⟨by omega, by omega, by omega, e1, e2⟩
      have hcur : ∀ j, j < rest.length →
          triDiff (rest.getD j (none, none, none)) =
            fpSub (y1.getD (j + 1) none) (y2.getD (j + 1) none) := by
        intro j hj
        have hstep : rest.getD j ((none : Option K), (none : Option K), (none : Option K)) =
            (p :: rest).getD (j + 1) (none, none, none) := by
          rw [List.getD_cons_succ]
        rw [hstep, hgetD (j + 1) (by omega), triDiff]
      have hprev : ∀ j, j < rest.length →
          triDiff ((p :: rest).getD j (none, none, none)) =
            fpSub (y1.getD j none) (y2.getD j none) := by
        intro j hj
        rw [hgetD j (by omega), triDiff]
      refine ⟨?_, ?_, ?_, ?_⟩
      · refine iff_of_false ?_ hnb
        rw [hscan]
        rintro (h | h)
        · exact (interceptScan_ne_length_err rest p false).1 h
        · exact (interceptScan_ne_length_err rest p false).2 h
      · rw [hscan, interceptScan_parallel_iff]
        constructor
        · rintro ⟨ht, -, hne⟩
          refine ⟨hnb, ?_, ?_⟩
          · intro i hi1 hiL
            obtain ⟨j, rfl⟩ : ∃ j, i = j + 1 := ⟨i - 1, by omega⟩
            have := ht j (by omega)
            rw [hcur j (by omega), hprev j (by omega)] at this
            simpa using this
          · intro i hi1 hiL
            obtain ⟨j, rfl⟩ : ∃ j, i = j + 1 := ⟨i - 1, by omega⟩
            have := hne j (by omega)
            rw [hcur j (by omega), hprev j (by omega)] at this
            simpa using this
        · rintro ⟨-, ht, hne⟩
          refine ⟨?_, rfl, ?_⟩
          · intro j hj
            rw [hcur j hj, hprev j hj]
            simpa using ht (j + 1) (by omega) (by omega)
          · intro j hj
            rw [hcur j hj, hprev j hj]
            simpa using hne (j + 1) (by omega) (by omega)
      · rw [hscan, interceptScan_noIntersection_iff]
        constructor
        · rintro ⟨ht, hor⟩
          rcases hor with hacc | ⟨j, hj, hne⟩
          · exact absurd hacc (by simp)
          · refine ⟨hnb, ?_, ⟨j + 1, by omega, by omega, ?_⟩⟩
            · intro i hi1 hiL
              obtain ⟨j', rfl⟩ : ∃ j', i = j' + 1 := ⟨i - 1, by omega⟩
              have := ht j' (by omega)
              rw [hcur j' (by omega), hprev j' (by omega)] at this
              simpa using this
            · simp only [Nat.add_sub_cancel]
              rw [← hcur j hj, ← hprev j hj]
              exact hne
        · rintro ⟨-, ht, i, hi1, hiL, hne⟩
          refine ⟨?_, Or.inr ⟨i - 1, by omega, ?_⟩⟩
          · intro j hj
            rw [hcur j hj, hprev j hj]
            simpa using ht (j + 1) (by omega) (by omega)
          · rw [hcur (i - 1) (by omega), hprev (i - 1) (by omega)]
            have hi : i - 1 + 1 = i := by omega
            rw [hi]
            exact hne
      · constructor
        · rintro ⟨u, v, hf⟩
          rw [hscan] at hf
          by_cases htr : ∃ j, j < rest.length ∧
              fpLeZero (fpMul (triDiff (rest.getD j (none, none, none)))
                (triDiff ((p :: rest).getD j (none, none, none)))) = true
          · obtain ⟨j, hj, htj⟩ := htr
            refine ⟨hnb, j + 1, by omega, by omega, ?_⟩
            simp only [Nat.add_sub_cancel]
            rw [← hcur j hj, ← hprev j hj]
            exact htj
          · push_neg at htr
            have hall : ∀ j, j < rest.length →
                fpLeZero (fpMul (triDiff (rest.getD j (none, none, none)))
                  (triDiff ((p :: rest).getD j (none, none, none)))) = false := by
              intro j hj
              simpa using htr j hj
            rcases interceptScan_of_no_trig rest p false hall with hpar | hnoi
            · rw [hf] at hpar
              exact absurd hpar (by simp)
            · rw [hf] at hnoi
              exact absurd hnoi (by simp)
        · rintro ⟨-, i, hi1, hiL, htr⟩
          have htr' : fpLeZero (fpMul (triDiff (rest.getD (i - 1) (none, none, none)))
              (triDiff ((p :: rest).getD (i - 1) (none, none, none)))) = true := by
            rw [hcur (i - 1) (by omega), hprev (i - 1) (by omega)]
            have hi : i - 1 + 1 = i := by omega
            rw [hi]
            exact htr
          obtain ⟨j0, hj0, -, -, hs⟩ :=
            interceptScan_found_of_trig rest p false ⟨i - 1, by omega, htr'⟩
          obtain ⟨u, v, hcr⟩ :=
            crossingAt_found ((p :: rest).getD j0 (none, none, none))
              (rest.getD j0 (none, none, none))
          exact ⟨u, v, by rw [hscan, hs, hcr]⟩

/-- C8: whenever `InterceptLines` reports a crossing, the crossing comes
from a segment both of whose endpoints carry defined (non-NaN) `y1` and
`y2` values and which passed the sign-change test; it is the first such
segment, and the reported point is computed from exactly that segment.  In
particular no segment touching a NaN index is ever reported (a NaN never
enters the comparison as if it were the number 0: every comparison with the
sentinel is false). -/
theorem InterceptLines_found_defined (x y1 y2 : List (Option K)) (u v : Option K)
    (h : InterceptLines x y1 y2 = InterceptResult.found u v) :
    ∃ i, 1 ≤ i ∧ i < x.length ∧
      (∃ a, y1.getD (i - 1) none = some a) ∧ (∃ a, y1.getD i none = some a) ∧
      (∃ b, y2.getD (i - 1) none = some b) ∧ (∃ b, y2.getD i none = some b) ∧
      fpLeZero (fpMul (fpSub (y1.getD i none) (y2.getD i none))
        (fpSub (y1.getD (i - 1) none) (y2.getD (i - 1) none))) = true ∧
      (∀ i', 1 ≤ i' → i' < i →
        fpLeZero (fpMul (fpSub (y1.getD i' none) (y2.getD i' none))
          (fpSub (y1.getD (i' - 1) none) (y2.getD (i' - 1) none))) = false) ∧
      InterceptLines x y1 y2 =
        crossingAt (x.getD (i - 1) none, y1.getD (i - 1) none, y2.getD (i - 1) none)
          (x.getD i none, y1.getD i none, y2.getD i none) := by
  by_cases hshort : x.length < 2 ∨ y1.length < 2 ∨ y2.length < 2
  · rw [InterceptLines, if_pos hshort] at h
    exact absurd h (by simp)
  · by_cases hmis : y1.length ≠ x.length ∨ y2.length ≠ x.length
    · rw [InterceptLines, if_neg hshort, if_pos hmis] at h
      exact absurd h (by simp)
    · push_neg at hshort hmis
      obtain ⟨hx2, hy12, hy22⟩ := hshort
      obtain ⟨e1, e2⟩ := hmis
      obtain ⟨p, rest, hzip, hscan, hlen, hgetD⟩ :=
        interceptLines_eq_scan x y1 y2 (by omega) e1 e2
      have hcur : ∀ j, j < rest.length →
          rest.getD j ((none : Option K), (none : Option K), (none : Option K)) =
            (x.getD (j + 1) none, y1.getD (j + 1) none, y2.getD (j + 1) none) := by
        intro j hj
        have hstep : rest.getD j ((none : Option K), (none : Option K), (none : Option K)) =
            (p :: rest).getD (j + 1) (none, none, none) := by
          rw [List.getD_cons_succ]
        rw [hstep, hgetD (j + 1) (by omega)]
      have htrex : ∃ j, j < rest.length ∧
          fpLeZero (fpMul (triDiff (rest.getD j (none, none, none)))
            (triDiff ((p :: rest).getD j (none, none, none)))) = true := by
        by_contra htr
        push_neg at htr
        have hall : ∀ j, j < rest.length →
            fpLeZero (fpMul (triDiff (rest.getD j (none, none, none)))
              (triDiff ((p :: rest).getD j (none, none, none)))) = false := by
          intro j hj
          simpa using htr j hj
        rw [hscan] at h
        rcases interceptScan_of_no_trig rest p false hall with hpar | hnoi
        · rw [h] at hpar
          exact absurd hpar (by simp)
        · rw [h] at hnoi
          exact absurd hnoi (by simp)
      obtain ⟨j0, hj0, htj0, hmin0, hs⟩ := interceptScan_found_of_trig rest p false htrex
      have hcurj0 := hcur j0 hj0
      have hprevj0 := hgetD j0 (by omega)
      have htj0' : fpLeZero (fpMul (fpSub (y1.getD (j0 + 1) none) (y2.getD (j0 + 1) none))
          (fpSub (y1.getD j0 none) (y2.getD j0 none))) = true := by
        rw [hcurj0, hprevj0] at htj0
        simpa [triDiff] using htj0
      obtain ⟨d1, d2, hd1, hd2, -⟩ := fpLeZero_fpMul_true htj0'
      obtain ⟨⟨a1, ha1⟩, ⟨b1, hb1⟩⟩ :=
        triDiff_some (t := (x.getD (j0 + 1) none, y1.getD (j0 + 1) none, y2.getD (j0 + 1) none))
          (by simpa [triDiff] using hd1)
      obtain ⟨⟨a0, ha0⟩, ⟨b0, hb0⟩⟩ :=
        triDiff_some (t := (x.getD j0 none, y1.getD j0 none, y2.getD j0 none))
          (by simpa [triDiff] using hd2)
      refine ⟨j0 + 1, by omega, by omega, ?_, ?_, ?_, ?_, ?_, ?_, ?_⟩
      · exact ⟨a0, by simpa using ha0⟩
      · exact ⟨a1, by simpa using ha1⟩
      · exact ⟨b0, by simpa using hb0⟩
      · exact ⟨b1, by simpa using hb1⟩
      · simpa using htj0'
      · intro i' hi'1 hi'lt
        obtain ⟨j', rfl⟩ : ∃ j', i' = j' + 1 := ⟨i' - 1, by omega⟩
        have := hmin0 j' (by omega)
        rw [hcur j' (by omega), hgetD j' (by omega)] at this
        simpa [triDiff] using this
      · rw [hscan, hs, hcurj0, hprevj0]
        simp

/-- C5: on defined (NaN-free) inputs of equal length at least 2,
`InterceptLines` resolves the first segment, scanning left to right, with
`diff_i * diff_{i-1} ≤ 0`: inside it, the current point exactly when
`diff_i = 0`, else the previous point exactly when `diff_{i-1} = 0`, else
the linear interpolation with
`fraction = |diff_{i-1}| / (|diff_i| + |diff_{i-1}|)`; later crossings are
never returned. -/
theorem InterceptLines_first_crossing (x y1 y2 : List K) (e1 : y1.length = x.length)
    (e2 : y2.length = x.length) (hx2 : 2 ≤ x.length) (i : ℕ) (hi1 : 1 ≤ i)
    (hiL : i < x.length)
    (htrig : (y1.getD i 0 - y2.getD i 0) * (y1.getD (i - 1) 0 - y2.getD (i - 1) 0) ≤ 0)
    (hmin : ∀ j, 1 ≤ j → j < i →
      ¬ (y1.getD j 0 - y2.getD j 0) * (y1.getD (j - 1) 0 - y2.getD (j - 1) 0) ≤ 0) :
    InterceptLines (x.map some) (y1.map some) (y2.map some) =
      (if y1.getD i 0 - y2.getD i 0 = 0 then
        InterceptResult.found (some (x.getD i 0)) (some (y1.getD i 0))
      else if y1.getD (i - 1) 0 - y2.getD (i - 1) 0 = 0 then
        InterceptResult.found (some (x.getD (i - 1) 0)) (some (y1.getD (i - 1) 0))
      else
        InterceptResult.found
          (some (x.getD (i - 1) 0 + |y1.getD (i - 1) 0 - y2.getD (i - 1) 0| /
            (|y1.getD i 0 - y2.getD i 0| + |y1.getD (i - 1) 0 - y2.getD (i - 1) 0|) *
            (x.getD i 0 - x.getD (i - 1) 0)))
          (some (y1.getD (i - 1) 0 + |y1.getD (i - 1) 0 - y2.getD (i - 1) 0| /
            (|y1.getD i 0 - y2.getD i 0| + |y1.getD (i - 1) 0 - y2.getD (i - 1) 0|) *
            (y1.getD i 0 - y1.getD (i - 1) 0)))) := by
  obtain ⟨p, rest, hzip, hscan, hlen, hgetD⟩ :=
    interceptLines_eq_scan (x.map some) (y1.map some) (y2.map some)
      (by simpa using hx2) (by simpa using e1) (by simpa using e2)
  have hlen' : rest.length + 1 = x.length := by simpa using hlen
  have htriple : ∀ k, k < x.length →
      (p :: rest).getD k ((none : Option K), (none : Option K), (none : Option K)) =
        (some (x.getD k 0), some (y1.getD k 0), some (y2.getD k 0)) := by
    intro k hk
    rw [hgetD k (by simpa using hk), getD_map_lt some x k hk none 0,
      getD_map_lt some y1 k (by omega) none 0, getD_map_lt some y2 k (by omega) none 0]
  have hcurT : ∀ j, j < rest.length →
      rest.getD j ((none : Option K), (none : Option K), (none : Option K)) =
        (some (x.getD (j + 1) 0), some (y1.getD (j + 1) 0), some (y2.getD (j + 1) 0)) := by
    intro j hj
    have hstep : rest.getD j ((none : Option K), (none : Option K), (none : Option K)) =
        (p :: rest).getD (j + 1) (none, none, none) := by
      rw [List.getD_cons_succ]
    rw [hstep, htriple (j + 1) (by omega)]
  have htrigB : ∀ j, j < rest.length →
      (fpLeZero (fpMul (triDiff (rest.getD j (none, none, none)))
        (triDiff ((p :: rest).getD j (none, none, none)))) = true ↔
      (y1.getD (j + 1) 0 - y2.getD (j + 1) 0) * (y1.getD j 0 - y2.getD j 0) ≤ 0) := by
    intro j hj
    rw [hcurT j hj, htriple j (by omega)]
    simp [triDiff, fpSub, fpMul, fpLeZero]
  have htr' : fpLeZero (fpMul (triDiff (rest.getD (i - 1) (none, none, none)))
      (triDiff ((p :: rest).getD (i - 1) (none, none, none)))) = true := by
    rw [htrigB (i - 1) (by omega)]
    have hi : i - 1 + 1 = i := by omega
    rw [hi]
    exact htrig
  obtain ⟨j0, hj0, htj0, hmin0, hs⟩ :=
    interceptScan_found_of_trig rest p false ⟨i - 1, by omega, htr'⟩
  have hj0i : j0 = i - 1 := by
    rcases lt_trichotomy j0 (i - 1) with hlt | heq | hgt
    · exfalso
      have hfalse := hmin (j0 + 1) (by omega) (by omega)
      have := (htrigB j0 hj0).mp htj0
      simp only [Nat.add_sub_cancel] at hfalse
      exact hfalse (by simpa using this)
    · exact heq
    · exfalso
      have := hmin0 (i - 1) hgt
      rw [htr'] at this
      exact absurd this (by simp)
  subst hj0i
  rw [hscan, hs, hcurT (i - 1) hj0, htriple (i - 1) (by omega)]
  have hi : i - 1 + 1 = i := by omega
  rw [hi]
  by_cases hd1 : y1.getD i 0 - y2.getD i 0 = 0
  · rw [if_pos hd1]
    simp only [crossingAt]
    rw [if_pos (by simp only [triDiff, fpSub, fpIsZero, decide_eq_true_eq]; exact hd1)]
  · rw [if_neg hd1]
    by_cases hd2 : y1.getD (i - 1) 0 - y2.getD (i - 1) 0 = 0
    · rw [if_pos hd2]
      simp only [crossingAt]
      rw [if_neg (by simp only [triDiff, fpSub, fpIsZero, decide_eq_true_eq]; exact hd1),
        if_pos (by simp only [triDiff, fpSub, fpIsZero, decide_eq_true_eq]; exact hd2)]
    · rw [if_neg hd2]
      have hsum : ¬ (|y1.getD i 0 - y2.getD i 0| + |y1.getD (i - 1) 0 - y2.getD (i - 1) 0|
          = 0) := by
        have h1 : 0 < |y1.getD i 0 - y2.getD i 0| := abs_pos.mpr hd1
        have h2 : 0 ≤ |y1.getD (i - 1) 0 - y2.getD (i - 1) 0| := abs_nonneg _
        intro hz
        nlinarith
      simp only [crossingAt]
      rw [if_neg (by simp only [triDiff, fpSub, fpIsZero, decide_eq_true_eq]; exact hd1),
        if_neg (by simp only [triDiff, fpSub, fpIsZero, decide_eq_true_eq]; exact hd2)]
      simp only [triDiff, fpSub, fpAbs, fpAdd, fpDiv, fpMul]
      rw [if_neg hsum]

/-- C5 witness: two crossing two-point lines; the hypotheses hold at `i = 1`
and the interpolated crossing is returned. -/
theorem InterceptLines_first_crossing_witness :
    ([(0 : ℚ), 1] : List ℚ).length = ([(0 : ℚ), 1] : List ℚ).length ∧
    ([(1 : ℚ), 0] : List ℚ).length = ([(0 : ℚ), 1] : List ℚ).length ∧
    2 ≤ ([(0 : ℚ), 1] : List ℚ).length ∧
    1 ≤ 1 ∧ 1 < ([(0 : ℚ), 1] : List ℚ).length ∧
    (([(0 : ℚ), 1] : List ℚ).getD 1 0 - ([(1 : ℚ), 0] : List ℚ).getD 1 0) *
      (([(0 : ℚ), 1] : List ℚ).getD (1 - 1) 0 - ([(1 : ℚ), 0] : List ℚ).getD (1 - 1) 0) ≤ 0 ∧
    (∀ j, 1 ≤ j → j < 1 →
      ¬ (([(0 : ℚ), 1] : List ℚ).getD j 0 - ([(1 : ℚ), 0] : List ℚ).getD j 0) *
        (([(0 : ℚ), 1] : List ℚ).getD (j - 1) 0 - ([(1 : ℚ), 0] : List ℚ).getD (j - 1) 0)
          ≤ 0) ∧
    InterceptLines (([(0 : ℚ), 1] : List ℚ).map some) (([(0 : ℚ), 1] : List ℚ).map some)
        (([(1 : ℚ), 0] : List ℚ).map some) =
      (if ([(0 : ℚ), 1] : List ℚ).getD 1 0 - ([(1 : ℚ), 0] : List ℚ).getD 1 0 = 0 then
        InterceptResult.found (some (([(0 : ℚ), 1] : List ℚ).getD 1 0))
          (some (([(0 : ℚ), 1] : List ℚ).getD 1 0))
      else if ([(0 : ℚ), 1] : List ℚ).getD (1 - 1) 0 -
          ([(1 : ℚ), 0] : List ℚ).getD (1 - 1) 0 = 0 then
        InterceptResult.found (some (([(0 : ℚ), 1] : List ℚ).getD (1 - 1) 0))
          (some (([(0 : ℚ), 1] : List ℚ).getD (1 - 1) 0))
      else
        InterceptResult.found
          (some (([(0 : ℚ), 1] : List ℚ).getD (1 - 1) 0 +
            |([(0 : ℚ), 1] : List ℚ).getD (1 - 1) 0 -
              ([(1 : ℚ), 0] : List ℚ).getD (1 - 1) 0| /
            (|([(0 : ℚ), 1] : List ℚ).getD 1 0 - ([(1 : ℚ), 0] : List ℚ).getD 1 0| +
              |([(0 : ℚ), 1] : List ℚ).getD (1 - 1) 0 -
                ([(1 : ℚ), 0] : List ℚ).getD (1 - 1) 0|) *
            (([(0 : ℚ), 1] : List ℚ).getD 1 0 - ([(0 : ℚ), 1] : List ℚ).getD (1 - 1) 0)))
          (some (([(0 : ℚ), 1] : List ℚ).getD (1 - 1) 0 +
            |([(0 : ℚ), 1] : List ℚ).getD (1 - 1) 0 -
              ([(1 : ℚ), 0] : List ℚ).getD (1 - 1) 0| /
            (|([(0 : ℚ), 1] : List ℚ).getD 1 0 - ([(1 : ℚ), 0] : List ℚ).getD 1 0| +
              |([(0 : ℚ), 1] : List ℚ).getD (1 - 1) 0 -
                ([(1 : ℚ), 0] : List ℚ).getD (1 - 1) 0|) *
            (([(0 : ℚ), 1] : List ℚ).getD 1 0 -
              ([(0 : ℚ), 1] : List ℚ).getD (1 - 1) 0)))) := by
  refine ⟨rfl, rfl, by norm_num, le_refl 1, by norm_num, by norm_num, ?_, ?_⟩
  · intro j h1 h2
    omega
  · exact InterceptLines_first_crossing [(0 : ℚ), 1] [(0 : ℚ), 1] [(1 : ℚ), 0] rfl rfl
      (by norm_num) 1 (le_refl 1) (by norm_num) (by norm_num) (fun j h1 h2 => by omega)

/-- C8 witness: a soil-style curve with a NaN at index 0 is skipped; the
reported crossing lies entirely on the defined segment between indices 1
and 2. -/
theorem InterceptLines_found_defined_witness :
    ∃ i, 1 ≤ i ∧ i < ([some (0 : ℚ), some 1, some 2] : List (Option ℚ)).length ∧
      (∃ a, ([none, some (0 : ℚ), some 2] : List (Option ℚ)).getD (i - 1) none = some a) ∧
      (∃ a, ([none, some (0 : ℚ), some 2] : List (Option ℚ)).getD i none = some a) ∧
      (∃ b, ([some (5 : ℚ), some 1, some 1] : List (Option ℚ)).getD (i - 1) none = some b) ∧
      (∃ b, ([some (5 : ℚ), some 1, some 1] : List (Option ℚ)).getD i none = some b) ∧
      fpLeZero (fpMul
        (fpSub (([none, some (0 : ℚ), some 2] : List (Option ℚ)).getD i none)
          (([some (5 : ℚ), some 1, some 1] : List (Option ℚ)).getD i none))
        (fpSub (([none, some (0 : ℚ), some 2] : List (Option ℚ)).getD (i - 1) none)
          (([some (5 : ℚ), some 1, some 1] : List (Option ℚ)).getD (i - 1) none))) = true ∧
      (∀ i', 1 ≤ i' → i' < i →
        fpLeZero (fpMul
          (fpSub (([none, some (0 : ℚ), some 2] : List (Option ℚ)).getD i' none)
            (([some (5 : ℚ), some 1, some 1] : List (Option ℚ)).getD i' none))
          (fpSub (([none, some (0 : ℚ), some 2] : List (Option ℚ)).getD (i' - 1) none)
            (([some (5 : ℚ), some 1, some 1] : List (Option ℚ)).getD (i' - 1) none)))
          = false) ∧
      InterceptLines [some (0 : ℚ), some 1, some 2] [none, some (0 : ℚ), some 2]
          [some (5 : ℚ), some 1, some 1] =
        crossingAt (([some (0 : ℚ), some 1, some 2] : List (Option ℚ)).getD (i - 1) none,
            ([none, some (0 : ℚ), some 2] : List (Option ℚ)).getD (i - 1) none,
            ([some (5 : ℚ), some 1, some 1] : List (Option ℚ)).getD (i - 1) none)
          (([some (0 : ℚ), some 1, some 2] : List (Option ℚ)).getD i none,
            ([none, some (0 : ℚ), some 2] : List (Option ℚ)).getD i none,
            ([some (5 : ℚ), some 1, some 1] : List (Option ℚ)).getD i none) :=
  InterceptLines_found_defined [some (0 : ℚ), some 1, some 2] [none, some (0 : ℚ), some 2]
    [some (5 : ℚ), some 1, some 1] (some (3 / 2)) (some 1)
    (by norm_num [InterceptLines, interceptScan, crossingAt, zip3, triDiff, fpSub, fpMul,
      fpAdd, fpDiv, fpAbs, fpLeZero, fpIsZero, fpNe])

/-! Interval invariant of Brent's iteration (claim C9). -/

theorem brentAccept_cases (m delta e sd : K) (pq : K × K) (r : K)
    (hr : r = (if 2 * (if pq.1 > 0 then pq.1 else -pq.1) <
          3 * m * (if pq.1 > 0 then -pq.2 else pq.2) -
            |delta * (if pq.1 > 0 then -pq.2 else pq.2)| ∧
          (if pq.1 > 0 then pq.1 else -pq.1) <
            |e * (if pq.1 > 0 then -pq.2 else pq.2) / 2| then
        ((if pq.1 > 0 then pq.1 else -pq.1) / (if pq.1 > 0 then -pq.2 else pq.2), sd)
      else (m, m)).1) :
    r = m ∨ ∃ p q : K, 0 ≤ p ∧ 2 * p < 3 * m * q - |delta * q| ∧ r = p / q := by
  by_cases h3 : pq.1 > 0
  · rw [if_pos h3, if_pos h3] at hr
    split at hr
    · next hC2 => exact Or.inr ⟨pq.1, -pq.2, le_of_lt h3, hC2.1, hr⟩
    · exact Or.inl hr
  · rw [if_neg h3, if_neg h3] at hr
    split at hr
    · next hC2 =>
      exact Or.inr ⟨-pq.1, pq.2, neg_nonneg.mpr (le_of_not_lt h3), hC2.1, hr⟩
    · exact Or.inl hr

theorem brentStepDE_cases (eps tol : K) (s : BrentState K) :
    (brentStepDE eps tol s).1 = (s.c - s.b) / 2 ∨
    ∃ p q : K, 0 ≤ p ∧
      2 * p < 3 * ((s.c - s.b) / 2) * q - |(2 * eps * |s.b| + tol) * q| ∧
      (brentStepDE eps tol s).1 = p / q := by
  simp only [brentStepDE]
  by_cases h1 : |s.e| ≥ 2 * eps * |s.b| + tol ∧ |s.fa| > |s.fb|
  · rw [if_pos h1]
    exact brentAccept_cases _ _ _ _ _ _ rfl
  · rw [if_neg h1]
    exact Or.inl rfl

theorem brentNext_b_eq (f : K → K) (eps tol : K) (s : BrentState K) :
    (brentNext f eps tol s).b = brentNewB eps tol s := by
  simp only [brentNext]
  split <;> rfl

theorem brentNext_c_cases (f : K → K) (eps tol : K) (s : BrentState K) :
    (brentNext f eps tol s).c = s.b ∨ (brentNext f eps tol s).c = s.c := by
  simp only [brentNext]
  split
  · exact Or.inl rfl
  · exact Or.inr rfl

theorem brentNext_b_mem (f : K → K) (eps tol : K) (s : BrentState K)
    (heps : 0 ≤ eps) (htol : 0 < tol)
    (hm : ¬ |(s.c - s.b) / 2| ≤ 2 * eps * |s.b| + tol) :
    min s.b s.c ≤ (brentNext f eps tol s).b ∧ (brentNext f eps tol s).b ≤ max s.b s.c := by
  rw [brentNext_b_eq]
  simp only [brentNewB]
  set delta := 2 * eps * |s.b| + tol with hdelta
  set m := (s.c - s.b) / 2 with hmdef
  clear_value delta m
  have hδ : 0 < delta := by
    have h1 : 0 ≤ 2 * eps * |s.b| := mul_nonneg (by linarith) (abs_nonneg s.b)
    rw [hdelta]
    linarith
  have hmδ : delta < |m| := not_le.mp hm
  have hcval : s.c = s.b + 2 * m := by
    rw [hmdef]
    ring
  rcases brentStepDE_cases eps tol s with hd | ⟨p, q, hp, hacc, hd⟩
  · rw [← hmdef] at hd
    rw [hd, if_pos hmδ]
    rcases le_total s.b s.c with h | h
    · rw [min_eq_left h, max_eq_right h]
      constructor <;> [linarith; linarith]
    · rw [min_eq_right h, max_eq_left h]
      constructor <;> [linarith; linarith]
  · rw [← hmdef, ← hdelta] at hacc
    rw [hd]
    clear hd
    have hmq : 0 < m * q := by nlinarith [abs_nonneg (delta * q)]
    have hq0 : q ≠ 0 := by
      intro h
      rw [h, mul_zero] at hmq
      exact lt_irrefl 0 hmq
    have hpq : p = p / q * q := (div_mul_cancel₀ p hq0).symm
    rcases lt_or_gt_of_ne hq0 with hqneg | hqpos
    · have hmneg : m < 0 := by
        rcases le_or_lt 0 m with h0 | h0
        · exfalso
          nlinarith
        · exact h0
      have habsm : |m| = -m := abs_of_neg hmneg
      rw [habsm] at hmδ
      have hdle : p / q ≤ 0 := div_nonpos_of_nonneg_of_nonpos hp hqneg.le
      have habs : |delta * q| = -(delta * q) :=
        abs_of_neg (mul_neg_of_pos_of_neg hδ hqneg)
      rw [habs, hpq] at hacc
      have hdgt : 3 * m + delta < 2 * (p / q) := by
        have h2 : (2 * (p / q)) * q < (3 * m + delta) * q := by nlinarith
        exact (mul_lt_mul_right_of_neg hqneg).mp h2
      have hcb : s.c ≤ s.b := by
        rw [hcval]
        linarith
      rw [min_eq_right hcb, max_eq_left hcb]
      by_cases hdd : |p / q| > delta
      · rw [if_pos hdd]
        rw [hcval]
        constructor <;> linarith
      · rw [if_neg hdd, if_neg (not_lt.mpr hmneg.le)]
        rw [hcval]
        constructor <;> linarith
    · have hmpos : 0 < m := by
        rcases le_or_lt m 0 with h0 | h0
        · exfalso
          nlinarith
        · exact h0
      have habsm : |m| = m := abs_of_pos hmpos
      rw [habsm] at hmδ
      have hd0 : 0 ≤ p / q := div_nonneg hp hqpos.le
      have habs : |delta * q| = delta * q := abs_of_pos (mul_pos hδ hqpos)
      rw [habs, hpq] at hacc
      have hdlt : 2 * (p / q) < 3 * m - delta := by
        have h2 : (2 * (p / q)) * q < (3 * m - delta) * q := by nlinarith
        exact (mul_lt_mul_right hqpos).mp h2
      have hbc : s.b ≤ s.c := by
        rw [hcval]
        linarith
      rw [min_eq_left hbc, max_eq_right hbc]
      by_cases hdd : |p / q| > delta
      · rw [if_pos hdd]
        rw [hcval]
        exact ⟨by linarith only [hd0], by linarith only [hdlt, hδ, hmpos]⟩
      · rw [if_neg hdd, if_pos hmpos]
        rw [hcval]
        exact ⟨by linarith only [hδ], by linarith only [hmδ, hmpos]⟩

theorem brentLoop_mem (f : K → K) (eps tol : K) (heps : 0 ≤ eps) (htol : 0 < tol)
    (lo hi : K) :
    ∀ (n : ℕ) (s : BrentState K), lo ≤ s.b → s.b ≤ hi → lo ≤ s.c → s.c ≤ hi →
      ∀ x, brentLoop f eps tol n s = BrentResult.ok x → lo ≤ x ∧ x ≤ hi := by
  intro n
  induction n with
  | zero =>
    intro s _ _ _ _ x hx
    simp [brentLoop] at hx
  | succ n ih =>
    intro s hb1 hb2 hc1 hc2 x hx
    rw [brentLoop] at hx
    split at hx
    · next h =>
      injection hx with hbx
      subst hbx
      exact ⟨hb1, hb2⟩
    · next h =>
      have hm : ¬ |(s.c - s.b) / 2| ≤ 2 * eps * |s.b| + tol := fun hc => h (Or.inl hc)
      have hmem := brentNext_b_mem f eps tol s heps htol hm
      refine ih (brentNext f eps tol s) ?_ ?_ ?_ ?_ x hx
      · exact le_trans (le_min hb1 hc1) hmem.1
      · exact le_trans hmem.2 (max_le hb2 hc2)
      · rcases brentNext_c_cases f eps tol s with h' | h' <;> rw [h'] <;> assumption
      · rcases brentNext_c_cases f eps tol s with h' | h' <;> rw [h'] <;> assumption

/-- C9: whenever `Brent(a, b, tol, f)` returns a root with no error, the
root lies within the closed interval `[min(a,b), max(a,b)]`: every
interpolated, bisected or minimum-delta step keeps the iterate inside the
initial bounds. -/
theorem Brent_ok_in_bounds (a b tol : K) (f : K → K) (x : K)
    (h : Brent a b tol f = BrentResult.ok x) :
    min a b ≤ x ∧ x ≤ max a b := by
  have heps : 0 ≤ machEps K := by
    rw [machEps]
    positivity
  have htol' : 0 < (if tol < machEps K then machEps K else tol) := by
    split
    · rw [machEps]
      positivity
    · next hge => exact lt_of_lt_of_le (by rw [machEps]; positivity) (not_lt.mp hge)
  simp only [Brent] at h
  set tol' := if tol < machEps K then machEps K else tol with htoldef
  split at h
  · exact absurd h (by simp)
  · split at h
    · next hfa =>
      injection h with hax
      subst hax
      exact ⟨min_le_left a b, le_max_left a b⟩
    · split at h
      · next hfb =>
        injection h with hbx
        subst hbx
        exact ⟨min_le_right a b, le_max_right a b⟩
      · split at h
        · exact brentLoop_mem f (machEps K) tol' heps htol' (min a b) (max a b) 1000 _
            (min_le_left a b) (le_max_left a b) (min_le_right a b) (le_max_right a b) x h
        · exact brentLoop_mem f (machEps K) tol' heps htol' (min a b) (max a b) 1000 _
            (min_le_right a b) (le_max_right a b) (min_le_left a b) (le_max_left a b) x h

/-- C9 witness: a concrete successful run over `ℚ` — `f(x) = 2x - 1` on
`[0, 1]` with a large tolerance converges at once to `1`, which lies in
`[min 0 1, max 0 1]`. -/
theorem Brent_ok_in_bounds_witness :
    Brent (0 : ℚ) 1 1 (fun t => 2 * t - 1) = BrentResult.ok 1 ∧
    min (0 : ℚ) 1 ≤ 1 ∧ (1 : ℚ) ≤ max (0 : ℚ) 1 := by
  have h : Brent (0 : ℚ) 1 1 (fun t => 2 * t - 1) = BrentResult.ok 1 := by
    simp only [Brent, machEps]
    norm_num only []
    simp only [if_false, abs_neg, abs_one, lt_self_iff_false]
    rw [show (1000 : ℕ) = 999 + 1 from rfl, brentLoop]
    norm_num only []
    rw [if_pos (Or.inl (by
      rw [abs_neg, abs_one, abs_of_pos (by norm_num : (0 : ℚ) < 1 / 2)]
      norm_num))]
  exact ⟨h, Brent_ok_in_bounds 0 1 1 (fun t => 2 * t - 1) 1 h⟩

end GoTrain
